import Mathlib

/-!
# Verification of the personal task manager's core engines

This development is a shallow embedding, in Lean 4, of the core of the
task-manager repository: the ordered-lane task store (`src/lib/store.ts`)
and the import-reconciliation engine (the CSV parser, similarity matcher,
duplicate resolver and import preview).

Modelling conventions, chosen once and used throughout:

* The SQLite database is modelled as a `Store` value: a list of project rows
  and a list of task rows (in table order), together with a logical clock
  `now` standing for `new Date().toISOString()` (ISO-8601 timestamp strings
  of equal length compare lexicographically exactly as their instants, so a
  `Nat` clock is a faithful carrier for the `TEXT` timestamp columns), and a
  counter `nextId` standing for the `crypto.randomUUID()` id generator.
  Every top-level store operation is a pure function from `Store` to a
  result paired with the successor `Store`.
* `due_date` / `scheduled_at` columns hold caller-supplied strings that the
  code feeds to `new Date(...)`: a `DateVal` is either `valid ms` (a
  parseable timestamp, as epoch milliseconds; `setDate(getDate()+1)` adds
  exactly 86400000 ms to a UTC instant) or `invalid raw` (a string for which
  `new Date` yields `NaN`, which `addRecurrenceDate` returns unchanged).
* SQL `SELECT ... ORDER BY` is filtering followed by `List.insertionSort`
  with the query's comparator (a stable sort; ties beyond the listed sort
  keys keep table order).  `UPDATE ... WHERE id = ?` is a `List.map` that
  rewrites the matching rows.  Rows with equal primary keys cannot coexist
  (`id TEXT PRIMARY KEY`), which theorems record as the `Store.wfT`
  hypothesis where they depend on it.
* JavaScript string operations (`trim`, `toLowerCase`, `split`,
  `replace(/\s+/g ...)`) are modelled character-exactly for the ASCII range
  handled by the application's data.
* The `activity` audit table, the `content_entries`/`content_assets` tables
  and the HTTP layer are out of scope of the claims and are not carried in
  the state; no claim reads them.
-/

namespace TaskMgr

/-- `TaskStatus` from `src/lib/types.ts`: the five status lanes. -/
inductive TaskStatus
  | todo
  | in_progress
  | blocked
  | parking_lot
  | done
deriving DecidableEq, Repr

/-- `ProjectStatus` from `src/lib/types.ts`. -/
inductive ProjectStatus
  | planned
  | active
  | blocked
  | done
  | archived
deriving DecidableEq, Repr

/-- `Priority` from `src/lib/types.ts`. -/
inductive Priority
  | low
  | medium
  | high
  | urgent
deriving DecidableEq, Repr

/-- `SourceType` from `src/lib/types.ts`. -/
inductive SourceType
  | mission_control
  | apple_reminders
  | apple_notes
  | chatgpt
  | claude
deriving DecidableEq, Repr

/-- `Recurrence` from `src/lib/types.ts`. -/
inductive Recurrence
  | none
  | daily
  | weekly
deriving DecidableEq, Repr

/-- A date-bearing string as the code consumes it: either a timestamp
`new Date` can parse (carried as epoch milliseconds, UTC) or an
unparseable string (`new Date(raw)` is `NaN`). -/
inductive DateVal
  | valid (ms : Int)
  | invalid (raw : String)
deriving DecidableEq, Repr

/-- A row of the `tasks` table (`Task` in `src/lib/types.ts`); `order` is the
`order_index` column, timestamps are clock values. -/
structure Task where
  id : String
  title : String
  details : Option String
  status : TaskStatus
  priority : Priority
  dueDate : Option DateVal
  scheduledAt : Option DateVal
  completedAt : Option Nat
  projectId : String
  source : SourceType
  order : Int
  recurrence : Recurrence
  createdAt : Nat
  updatedAt : Nat
deriving DecidableEq, Repr

/-- A row of the `projects` table (`Project` in `src/lib/types.ts`). -/
structure Project where
  id : String
  title : String
  description : Option String
  status : ProjectStatus
  dueDate : Option DateVal
  completionPercent : Int
  source : SourceType
  createdAt : Nat
  updatedAt : Nat
deriving DecidableEq, Repr

/-- The persistent store: the two tables the claims read, the logical clock
feeding `new Date().toISOString()`, and the id-generation counter feeding
`crypto.randomUUID()`. -/
structure Store where
  projects : List Project
  tasks : List Task
  now : Nat
  nextId : Nat
deriving DecidableEq, Repr

/-- `INBOX_PROJECT_ID` from `src/lib/store.ts`. -/
def INBOX_PROJECT_ID : String := "proj-inbox"

/-- `TASK_STATUSES` from `src/lib/store.ts` (iteration order of the lanes). -/
def TASK_STATUSES : List TaskStatus :=
  [TaskStatus.todo, TaskStatus.in_progress, TaskStatus.blocked,
   TaskStatus.parking_lot, TaskStatus.done]

/-- `id TEXT PRIMARY KEY` on the `tasks` table: no two rows share an id.
Program-generated ids (`createId`) are nonempty strings. -/
def Store.wfT (s : Store) : Prop :=
  (s.tasks.map Task.id).Nodup ∧ ∀ t ∈ s.tasks, t.id ≠ ""

/-- JavaScript whitespace (the ASCII part of `\s` / `String.prototype.trim`). -/
def isJsSpace (c : Char) : Bool :=
  c = ' ' || c = '\t' || c = '\n' || c = '\r' || c = '\x0b' || c = '\x0c'

/-- `String.prototype.trim` on a char list. -/
def jsTrimList (l : List Char) : List Char :=
  ((l.dropWhile isJsSpace).reverse.dropWhile isJsSpace).reverse

/-- `String.prototype.trim`. -/
def jsTrim (s : String) : String := String.mk (jsTrimList s.data)

/-- One char of `.replace(/[^a-z0-9\s]/g, " ")`: chars kept by the class. -/
def keepChar (c : Char) : Bool :=
  ('a' ≤ c && c ≤ 'z') || ('0' ≤ c && c ≤ '9') || isJsSpace c

/-- `.replace(/\s+/g, " ")`: each maximal whitespace run becomes one space.
The boolean argument records whether the previous char was whitespace. -/
def collapseAux : Bool → List Char → List Char
  | _, [] => []
  | inWs, c :: rest =>
    if isJsSpace c then
      if inWs then collapseAux true rest else ' ' :: collapseAux true rest
    else c :: collapseAux false rest

/-- `normalize` from the import module, on char lists: lower-case, replace
everything but letters/digits/whitespace with a space, collapse whitespace
runs, trim. -/
def normalizeChars (l : List Char) : List Char :=
  jsTrimList (collapseAux false
    ((l.map Char.toLower).map (fun c => if keepChar c then c else ' ')))

/-- `normalize(value)` from the import module. -/
def normalize (s : String) : String := String.mk (normalizeChars s.data)

/-- Adjacent pairs of a char list: the two-char slices `text.slice(i, i+2)`. -/
def charPairs : List Char → List (Char × Char)
  | a :: b :: rest => (a, b) :: charPairs (b :: rest)
  | _ => []

/-- `bigrams(value)`: the set of two-char slices of the normalized string
padded with one leading and one trailing space. -/
def bigramSet (s : String) : Finset (Char × Char) :=
  (charPairs (' ' :: (normalize s).data ++ [' '])).toFinset

/-- `diceSimilarity(a, b)` from the import module, over exact rationals
(all scores `2·o/(m+n)` are small-denominator rationals; IEEE doubles
represent every comparison in the code faithfully at these magnitudes). -/
def diceSimilarity (a b : String) : ℚ :=
  let A := bigramSet a
  let B := bigramSet b
  if A.card = 0 || B.card = 0 then 0
  else (2 * ((A ∩ B).card : ℚ)) / ((A.card : ℚ) + (B.card : ℚ))

/-! ## Store helpers (`src/lib/store.ts` internals) -/

/-- First index of `x` in `ids` (the row hit by `UPDATE ... WHERE id = ?`
when iterating `forEach((taskId, index) => ...)`). -/
def posOf : List String → String → Option Nat
  | [], _ => Option.none
  | a :: t, x => if a = x then some 0 else (posOf t x).map (· + 1)

/-- `Array.from(new Set(list))`: deduplication keeping first occurrences. -/
def dedupFirstAux (seen : List String) : List String → List String
  | [] => []
  | a :: t => if a ∈ seen then dedupFirstAux seen t else a :: dedupFirstAux (a :: seen) t

/-- `Array.from(new Set(list))`: deduplication keeping first occurrences. -/
def dedupFirst (l : List String) : List String := dedupFirstAux [] l

/-- SQLite `TEXT` comparison (BINARY collation): codepoint-lexicographic
order on the char lists (equal to byte order on the ASCII data involved). -/
def strLtChars : List Char → List Char → Bool
  | [], [] => false
  | [], _ :: _ => true
  | _ :: _, [] => false
  | a :: as, b :: bs => if a = b then strLtChars as bs else decide (a < b)

/-- Strict SQLite `TEXT` order on strings. -/
def strLt (a b : String) : Bool := strLtChars a.data b.data

/-- Non-strict SQLite `TEXT` order on strings. -/
def strLe (a b : String) : Bool := strLt a b || a == b

/-- `ORDER BY order_index ASC, updated_at DESC, id ASC` (the reorder/delete
renumbering queries; ISO timestamps compare lexicographically as instants). -/
def leOrderUpdDescId (a b : Task) : Prop :=
  a.order < b.order ∨ (a.order = b.order ∧
    (b.updatedAt < a.updatedAt ∨ (a.updatedAt = b.updatedAt ∧ strLe a.id b.id = true)))

instance : DecidableRel leOrderUpdDescId := fun a b => by
  unfold leOrderUpdDescId; infer_instance

/-- `ORDER BY order_index ASC, created_at ASC, updated_at ASC, id ASC`
(the `normalizeTaskOrder` repair query). -/
def leOrderCreUpdId (a b : Task) : Prop :=
  a.order < b.order ∨ (a.order = b.order ∧
    (a.createdAt < b.createdAt ∨ (a.createdAt = b.createdAt ∧
      (a.updatedAt < b.updatedAt ∨ (a.updatedAt = b.updatedAt ∧ strLe a.id b.id = true)))))

instance : DecidableRel leOrderCreUpdId := fun a b => by
  unfold leOrderCreUpdId; infer_instance

/-- The `status` column text of a lane, as stored in SQLite. -/
def statusText : TaskStatus → String
  | TaskStatus.todo => "todo"
  | TaskStatus.in_progress => "in_progress"
  | TaskStatus.blocked => "blocked"
  | TaskStatus.parking_lot => "parking_lot"
  | TaskStatus.done => "done"

/-- `ORDER BY status ASC, order_index ASC, updated_at DESC` (the `listTasks`
query; `status` is a `TEXT` column, so it orders by status name). -/
def leStatusOrderUpd (a b : Task) : Prop :=
  strLt (statusText a.status) (statusText b.status) = true ∨
    (statusText a.status = statusText b.status ∧
      (a.order < b.order ∨ (a.order = b.order ∧ b.updatedAt ≤ a.updatedAt)))

instance : DecidableRel leStatusOrderUpd := fun a b => by
  unfold leStatusOrderUpd; infer_instance

/-- `ORDER BY updated_at DESC` (the `listProjects` query). -/
def leProjUpdDesc (a b : Project) : Prop := b.updatedAt ≤ a.updatedAt

instance : DecidableRel leProjUpdDesc := fun a b => by
  unfold leProjUpdDesc; infer_instance

/-- The ids of `tasks`, in the order of a `SELECT id ... ORDER BY` with
comparator `r` (a stable sort of the table rows). -/
def sortIdsBy (r : Task → Task → Prop) [DecidableRel r] (tasks : List Task) : List String :=
  (List.insertionSort r tasks).map Task.id

/-- A `forEach((taskId, index) => UPDATE ...)` renumbering pass: every row
whose id appears in `ids` is rewritten by `upd` at its (first) index. -/
def touchMap (ids : List String) (upd : Task → Nat → Task) (tasks : List Task) : List Task :=
  tasks.map (fun t =>
    match posOf ids t.id with
    | some i => upd t i
    | Option.none => t)

/-- One lane pass of `normalizeTaskOrder`: re-number the lane `st` densely in
the repair query's order. -/
def normalizeLane (st : TaskStatus) (tasks : List Task) : List Task :=
  touchMap (sortIdsBy leOrderCreUpdId (tasks.filter (fun t => t.status = st)))
    (fun t i => { t with order := (i : Int) }) tasks

/-- `normalizeTaskOrder(db)`: renumber every lane, in `TASK_STATUSES` order. -/
def normalizeTaskOrder (tasks : List Task) : List Task :=
  TASK_STATUSES.foldl (fun acc st => normalizeLane st acc) tasks

/-- `getNextTaskOrder(db, status)`:
`COALESCE(MAX(order_index), -1) + 1` over the lane. -/
def getNextTaskOrder (st : TaskStatus) (tasks : List Task) : Int :=
  match (tasks.filter (fun t => t.status = st)).map Task.order with
  | [] => 0
  | o :: rest => rest.foldl max o + 1

/-- `createId(prefix)`: a fresh `prefix-<uuid>` id, modelled by the id
counter. -/
def createId (pre : String) (n : Nat) : String := pre ++ "-" ++ toString n

/-- `addRecurrenceDate(date, recurrence)`: `null` and `"none"` pass through,
unparseable dates (`NaN`) are returned unchanged, otherwise one day
(daily) or seven days (weekly) in milliseconds is added. -/
def addRecurrenceDate (date : Option DateVal) (r : Recurrence) : Option DateVal :=
  match date, r with
  | Option.none, _ => Option.none
  | d, Recurrence.none => d
  | some (DateVal.invalid raw), _ => some (DateVal.invalid raw)
  | some (DateVal.valid ms), Recurrence.daily => some (DateVal.valid (ms + 86400000))
  | some (DateVal.valid ms), Recurrence.weekly => some (DateVal.valid (ms + 604800000))

/-- `projectExists(db, projectId)`. -/
def projectExists (pid : String) (s : Store) : Bool :=
  (s.projects.filter (fun p => p.id = pid)) ≠ []

/-- `ensureInboxProject(db)`: insert the singleton Inbox project if absent;
returns its id. -/
def ensureInboxProject (s : Store) : String × Store :=
  if projectExists INBOX_PROJECT_ID s then (INBOX_PROJECT_ID, s)
  else
    let ts := s.now
    (INBOX_PROJECT_ID,
      { s with projects := s.projects ++ [{
          id := INBOX_PROJECT_ID
          title := "Inbox"
          description := some "System default project for uncategorized tasks."
          status := ProjectStatus.active
          dueDate := Option.none
          completionPercent := 0
          source := SourceType.mission_control
          createdAt := ts
          updatedAt := ts }] })

/-! ## Store operations (exports of `src/lib/store.ts`) -/

/-- The optional-field input of `createProject` (absent fields use the code's
defaults). -/
structure CreateProjectInput where
  title : String
  description : Option String := Option.none
  status : Option ProjectStatus := Option.none
  dueDate : Option DateVal := Option.none
  source : Option SourceType := Option.none
deriving DecidableEq, Repr

/-- `createProject(input)`. -/
def createProject (input : CreateProjectInput) (s : Store) : Project × Store :=
  let ts := s.now
  let item : Project := {
    id := createId "proj" s.nextId
    title := jsTrim input.title
    description := match input.description with
      | some d => if jsTrim d = "" then Option.none else some (jsTrim d)
      | Option.none => Option.none
    status := input.status.getD ProjectStatus.planned
    dueDate := input.dueDate
    completionPercent := if input.status = some ProjectStatus.done then 100 else 0
    source := input.source.getD SourceType.mission_control
    createdAt := ts
    updatedAt := ts }
  (item, { s with projects := s.projects ++ [item], now := s.now + 1, nextId := s.nextId + 1 })

/-- A partial-update patch for `updateProject`; `some Option.none` is an
explicit `null`, outer `Option.none` an omitted field. -/
structure ProjectPatch where
  title : Option String := Option.none
  description : Option (Option String) := Option.none
  status : Option ProjectStatus := Option.none
  dueDate : Option (Option DateVal) := Option.none
  completionPercent : Option Int := Option.none
deriving DecidableEq, Repr

/-- `updateProject(id, patch)`. -/
def updateProject (id : String) (patch : ProjectPatch) (s : Store) : Option Project × Store :=
  match s.projects.find? (fun p => p.id = id) with
  | Option.none => (Option.none, s)
  | some current =>
    let item : Project := { current with
      title := match patch.title with | some v => jsTrim v | Option.none => current.title
      description := patch.description.getD current.description
      status := patch.status.getD current.status
      dueDate := patch.dueDate.getD current.dueDate
      completionPercent := match patch.completionPercent with
        | some v => max 0 (min 100 v)
        | Option.none => current.completionPercent
      updatedAt := s.now }
    (some item,
      { s with projects := s.projects.map (fun p => if p.id = id then item else p),
               now := s.now + 1 })

/-- `deleteProject(id)`: the Inbox refuses deletion; otherwise tasks of the
project are reassigned to the (ensured) Inbox and the project row deleted. -/
def deleteProject (id : String) (s : Store) : Bool × Store :=
  if id = INBOX_PROJECT_ID then (false, s)
  else
    match s.projects.find? (fun p => p.id = id) with
    | Option.none => (false, s)
    | some _ =>
      let s1 := (ensureInboxProject s).2
      (true,
        { s1 with
          tasks := s1.tasks.map (fun t =>
            if t.projectId = id then { t with projectId := INBOX_PROJECT_ID } else t)
          projects := s1.projects.filter (fun p => p.id ≠ id)
          now := s1.now + 1 })

/-- The optional-field input of `createTask`. -/
structure CreateTaskInput where
  title : String
  details : Option String := Option.none
  status : Option TaskStatus := Option.none
  priority : Option Priority := Option.none
  dueDate : Option DateVal := Option.none
  scheduledAt : Option DateVal := Option.none
  projectId : Option String := Option.none
  source : Option SourceType := Option.none
  recurrence : Option Recurrence := Option.none
deriving DecidableEq, Repr

/-- `createTask(input)`: defaults applied, unknown project replaced by the
ensured Inbox, `completed_at` set when created directly in `done`, order
appended at the end of the lane. -/
def createTask (input : CreateTaskInput) (s : Store) : Task × Store :=
  let ts := s.now
  let status := input.status.getD TaskStatus.todo
  let recurrence := input.recurrence.getD Recurrence.none
  let pid0 := input.projectId.getD INBOX_PROJECT_ID
  let pr := if projectExists pid0 s then (pid0, s) else ensureInboxProject s
  let s1 := pr.2
  let item : Task := {
    id := createId "task" s1.nextId
    title := jsTrim input.title
    details := match input.details with
      | some d => if jsTrim d = "" then Option.none else some (jsTrim d)
      | Option.none => Option.none
    status := status
    priority := input.priority.getD Priority.medium
    dueDate := input.dueDate
    scheduledAt := input.scheduledAt
    completedAt := if status = TaskStatus.done then some ts else Option.none
    projectId := pr.1
    source := input.source.getD SourceType.mission_control
    order := getNextTaskOrder status s1.tasks
    recurrence := recurrence
    createdAt := ts
    updatedAt := ts }
  (item, { s1 with tasks := s1.tasks ++ [item], now := s1.now + 1, nextId := s1.nextId + 1 })

/-- A partial-update patch for `updateTask`; `some Option.none` is an explicit
`null`, outer `Option.none` an omitted field. -/
structure TaskPatch where
  title : Option String := Option.none
  details : Option (Option String) := Option.none
  status : Option TaskStatus := Option.none
  priority : Option Priority := Option.none
  dueDate : Option (Option DateVal) := Option.none
  scheduledAt : Option (Option DateVal) := Option.none
  projectId : Option (Option String) := Option.none
  order : Option Int := Option.none
  recurrence : Option Recurrence := Option.none
deriving DecidableEq, Repr

/-- `updateTask(id, patch)`: patch-merge the row, recompute `completed_at`
from the resulting status, renumber all lanes when the status changed, and
spawn the recurrence successor on a non-done → done crossing with a
non-none recurrence. -/
def updateTask (id : String) (patch : TaskPatch) (s : Store) : Option Task × Store :=
  match s.tasks.find? (fun t => t.id = id) with
  | Option.none => (Option.none, s)
  | some current =>
    if patch.projectId = some Option.none then (Option.none, s)
    else
      let nextStatus := patch.status.getD current.status
      let nextRecurrence := patch.recurrence.getD current.recurrence
      let nextOrder : Int :=
        match patch.order with
        | some o => max 0 o
        | Option.none =>
          if nextStatus ≠ current.status then getNextTaskOrder nextStatus s.tasks
          else current.order
      let pr := match patch.projectId with
        | some (some pid) => if projectExists pid s then (pid, s) else ensureInboxProject s
        | _ => (current.projectId, s)
      let s1 := pr.2
      let item : Task := { current with
        title := match patch.title with | some v => jsTrim v | Option.none => current.title
        details := patch.details.getD current.details
        status := nextStatus
        priority := patch.priority.getD current.priority
        dueDate := patch.dueDate.getD current.dueDate
        scheduledAt := patch.scheduledAt.getD current.scheduledAt
        completedAt := if nextStatus = TaskStatus.done then some s.now else Option.none
        projectId := pr.1
        order := nextOrder
        recurrence := nextRecurrence
        updatedAt := s.now }
      let tasksUpd := s1.tasks.map (fun t => if t.id = id then item else t)
      let tasksNorm :=
        if current.status ≠ item.status then normalizeTaskOrder tasksUpd else tasksUpd
      let s2 := { s1 with tasks := tasksNorm }
      let s3 :=
        if current.status ≠ TaskStatus.done ∧ item.status = TaskStatus.done ∧
            item.recurrence ≠ Recurrence.none then
          (createTask {
            title := item.title
            details := item.details
            status := some TaskStatus.todo
            priority := some item.priority
            dueDate := addRecurrenceDate item.dueDate item.recurrence
            scheduledAt := addRecurrenceDate item.scheduledAt item.recurrence
            projectId := some item.projectId
            source := some item.source
            recurrence := some item.recurrence } s2).2
        else s2
      (some item, { s3 with now := s3.now + 1 })

/-- The wire payload of `reorderTasksInLane`. -/
structure ReorderInput where
  movedTaskId : String
  toStatus : TaskStatus
  orderedTaskIds : List String
deriving DecidableEq, Repr

/-- The `listTasks()` result order. -/
def listTasks (tasks : List Task) : List Task :=
  List.insertionSort leStatusOrderUpd tasks

/-- The body of the reorder transaction (`db.transaction(() => ...)` in
`reorderTasksInLane`): set the moved task's lane, renumber the destination
lane as `orderedIds` followed by the stable remainder of the lane, and
densely repair the source lane when the move crossed lanes. -/
def reorderTx (input : ReorderInput) (movedStatus : TaskStatus)
    (orderedIds : List String) (ts : Nat) (tasks : List Task) : List Task :=
  let tasks1 := tasks.map (fun t =>
    if t.id = input.movedTaskId then { t with status := input.toStatus, updatedAt := ts }
    else t)
  let remaining : List String :=
    if orderedIds.length ≠ 0 then
      sortIdsBy leOrderUpdDescId
        (tasks1.filter (fun t => t.status = input.toStatus ∧ t.id ∉ orderedIds))
    else
      sortIdsBy leOrderUpdDescId
        (tasks1.filter (fun t => t.status = input.toStatus ∧ t.id ≠ input.movedTaskId))
  let finalIds := orderedIds ++ remaining
  let tasks2 := touchMap finalIds
    (fun t i => { t with status := input.toStatus, order := (i : Int), updatedAt := ts })
    tasks1
  if movedStatus ≠ input.toStatus then
    touchMap (sortIdsBy leOrderUpdDescId (tasks2.filter (fun t => t.status = movedStatus)))
      (fun t i => { t with order := (i : Int) }) tasks2
  else tasks2

/-- `reorderTasksInLane(input)`: validate (moved task exists, its id is among
the deduplicated nonempty `orderedTaskIds`, every listed id exists, and no
listed id other than the moved one sits in a different lane), then run the
reorder transaction.
Rejections return `Option.none` with the store untouched. -/
def reorderTasksInLane (input : ReorderInput) (s : Store) : Option (List Task) × Store :=
  match s.tasks.find? (fun t => t.id = input.movedTaskId) with
  | Option.none => (Option.none, s)
  | some moved =>
    let orderedIds := dedupFirst (input.orderedTaskIds.filter (fun i => i ≠ ""))
    if input.movedTaskId ∉ orderedIds then (Option.none, s)
    else
      let rows := s.tasks.filter (fun t => t.id ∈ orderedIds)
      if orderedIds.length ≠ 0 ∧ rows.length ≠ orderedIds.length then (Option.none, s)
      else if orderedIds.length ≠ 0 ∧
          rows.any (fun r => r.id ≠ input.movedTaskId ∧ r.status ≠ input.toStatus) then
        (Option.none, s)
      else
        let s' := { s with
          tasks := reorderTx input moved.status orderedIds s.now s.tasks
          now := s.now + 1 }
        (some (listTasks s'.tasks), s')

/-- `deleteTask(id)`: delete the row and densely renumber the lane it was in. -/
def deleteTask (id : String) (s : Store) : Bool × Store :=
  match s.tasks.find? (fun t => t.id = id) with
  | Option.none => (false, s)
  | some task =>
    let tasks1 := s.tasks.filter (fun t => t.id ≠ id)
    let tasks2 := touchMap
      (sortIdsBy leOrderUpdDescId (tasks1.filter (fun t => t.status = task.status)))
      (fun t i => { t with order := (i : Int) }) tasks1
    (true, { s with tasks := tasks2, now := s.now + 1 })

/-! ## Import reconciliation (the import module: parser, duplicate resolver,
preview) -/

/-- `ImportType` from `src/lib/types.ts`: the closed set of import sources. -/
inductive ImportType
  | apple_reminders
  | apple_notes
  | chatgpt_projects
  | claude_projects
deriving DecidableEq, Repr

/-- `ImportEntityType`: what kind of entity an import row targets. -/
inductive ImportEntityType
  | task
  | project
deriving DecidableEq, Repr

/-- The `kind` of a duplicate match. -/
inductive MatchKind
  | exact
  | fuzzy
deriving DecidableEq, Repr

/-- `ImportAction` from `src/lib/types.ts`. -/
inductive ImportAction
  | create
  | update
  | skip
deriving DecidableEq, Repr

/-- `ImportDuplicateMatch` from `src/lib/types.ts`. -/
structure ImportDuplicateMatch where
  entityType : ImportEntityType
  id : String
  title : String
  score : ℚ
  kind : MatchKind
deriving DecidableEq, Repr

/-- `String.prototype.split` with a one-char separator, on char lists. -/
def splitOnChar (sep : Char) : List Char → List (List Char)
  | [] => [[]]
  | c :: rest =>
    match splitOnChar sep rest with
    | [] => [[]]
    | cur :: parts => if c = sep then [] :: cur :: parts else (c :: cur) :: parts

/-- `String.prototype.split` with a one-char separator. -/
def jsSplit (s : String) (sep : Char) : List String :=
  (splitOnChar sep s.data).map String.mk

/-- `parseCsv(text)`: split into lines (`/\r?\n/`; a trailing `\r` is removed
by the per-line trim either way), trim, drop blanks; the first line split on
`","` (fields trimmed) is the header row, the rest are value rows. -/
def parseCsv (text : String) : List String × List (List String) :=
  let lines := ((jsSplit text '\n').map jsTrim).filter (fun l => l ≠ "")
  match lines with
  | [] => ([], [])
  | h :: rest =>
    ((jsSplit h ',').map jsTrim, rest.map (fun l => (jsSplit l ',').map jsTrim))

/-- `requiredHeadersByType(type)`: every recognized source requires `title`. -/
def requiredHeadersByType : ImportType → List String
  | ImportType.apple_reminders => ["title"]
  | ImportType.apple_notes => ["title"]
  | ImportType.chatgpt_projects => ["title"]
  | ImportType.claude_projects => ["title"]

/-- `typeToSource(type)`: the provenance tag of an import source. -/
def typeToSource : ImportType → SourceType
  | ImportType.apple_reminders => SourceType.apple_reminders
  | ImportType.apple_notes => SourceType.apple_notes
  | ImportType.chatgpt_projects => SourceType.chatgpt
  | ImportType.claude_projects => SourceType.claude

/-- `typeToEntity(type)`: which entity kind a source produces (`null` for the
note-producing source). -/
def typeToEntity : ImportType → Option ImportEntityType
  | ImportType.apple_reminders => some ImportEntityType.task
  | ImportType.chatgpt_projects => some ImportEntityType.project
  | ImportType.claude_projects => some ImportEntityType.project
  | ImportType.apple_notes => Option.none

/-- The candidate scan of `findDuplicate`: keep the first strict maximum of
the Dice scores (`if (!best || score > best.score)`). Candidates are
`(id, title)` pairs. -/
def scanStep (title : String) (best : Option (String × String × ℚ))
    (item : String × String) : Option (String × String × ℚ) :=
  let score := diceSimilarity item.2 title
  match best with
  | Option.none => some (item.1, item.2, score)
  | some b => if score > b.2.2 then some (item.1, item.2, score) else some b

/-- The candidate scan of `findDuplicate` as a fold of `scanStep`. -/
def scanBest (cands : List (String × String)) (title : String) :
    Option (String × String × ℚ) :=
  cands.foldl (scanStep title) Option.none

/-- Round `a / b` to the nearest integer, ties to even (the IEEE 754
default rounding). -/
def rne (a b : ℕ) : ℕ :=
  let m0 := a / b
  let r := a % b
  if 2 * r < b then m0
  else if b < 2 * r then m0 + 1
  else if m0 % 2 = 0 then m0 else m0 + 1

/-- The number of doublings of `pk` needed to reach `q` (fuel-bounded; with
fuel `q` it is total for positive inputs): the binade index of `p / q`. -/
def fpScaleAux : ℕ → ℕ → ℕ → ℕ
  | 0, _, _ => 0
  | Nat.succ fuel, pk, q => if q ≤ pk then 0 else fpScaleAux fuel (2 * pk) q + 1

/-- The exact rational value of the IEEE binary64 double nearest to `p / q`
(ties to even): the result of the JavaScript division `p / q` for
`0 ≤ p / q ≤ 1` (53-bit significand scaled to the value's binade). -/
def fp64 (p q : ℕ) : ℚ :=
  if p = 0 ∨ q = 0 then 0
  else
    let k := fpScaleAux q p q
    let m := rne (p * 2 ^ (52 + k)) q
    (m : ℚ) / (2 ^ (52 + k) : ℚ)

/-- The binary64 double holding the score rational `x`: JavaScript computes
`(2 * overlap) / (A.size + B.size)` in one rounded double division. -/
def fp64q (x : ℚ) : ℚ := fp64 x.num.toNat x.den

/-- `Number(x.toFixed(2))` on the double holding `x`: `toFixed` picks the
integer `n` with `n / 100` closest to the double's exact value (ties to the
larger `n`), and `Number` re-parses `"0.nn"` to the nearest double. -/
def jsToFixed2Number (x : ℚ) : ℚ :=
  fp64 (Int.floor (fp64q x * 100 + 1/2)).toNat 100

/-- The candidate pool `findDuplicate` scans: entities of the requested kind
whose provenance equals the scope source, as `(id, title)` pairs, in the
respective list query's order. -/
def scopedPool (source : SourceType) (et : ImportEntityType) (s : Store) :
    List (String × String) :=
  match et with
  | ImportEntityType.task =>
    ((listTasks s.tasks).filter (fun t => t.source = source)).map (fun t => (t.id, t.title))
  | ImportEntityType.project =>
    ((List.insertionSort leProjUpdDesc s.projects).filter
      (fun p => p.source = source)).map (fun p => (p.id, p.title))

/-- The shared body of `findDuplicate`'s two (textually identical) branches:
first exact normalized-title match wins with score 1, else the best fuzzy
score wins if it reaches the 0.72 threshold, rounded to two decimals. -/
def findDupOn (cands : List (String × String)) (et : ImportEntityType)
    (title : String) : Option ImportDuplicateMatch :=
  match cands.find? (fun c => TaskMgr.normalize c.2 = TaskMgr.normalize title) with
  | some e => some { entityType := et, id := e.1, title := e.2, score := 1, kind := MatchKind.exact }
  | Option.none =>
    match scanBest cands title with
    | some b =>
      if b.2.2 ≥ 72/100 then
        some { entityType := et, id := b.1, title := b.2.1,
               score := jsToFixed2Number b.2.2, kind := MatchKind.fuzzy }
      else Option.none
    | Option.none => Option.none

/-- `findDuplicate(source, entityType, title)`. -/
def findDuplicate (source : SourceType) (et : ImportEntityType) (title : String)
    (s : Store) : Option ImportDuplicateMatch :=
  findDupOn (scopedPool source et s) et title

/-- `suggestedAction(match)`. -/
def suggestedActionOf (m : Option ImportDuplicateMatch) : ImportAction :=
  match m with
  | Option.none => ImportAction.create
  | some mm => match mm.kind with
    | MatchKind.exact => ImportAction.update
    | MatchKind.fuzzy => ImportAction.skip

/-- `ImportPreviewRow` from `src/lib/types.ts`; `values` is the row object in
header order (duplicate headers: the last assignment wins on lookup). -/
structure ImportPreviewRow where
  line : Nat
  values : List (String × String)
  error : Option String
  duplicateMatch : Option ImportDuplicateMatch
  suggestedAction : ImportAction
deriving DecidableEq, Repr

/-- `ImportPreviewResponse` from `src/lib/types.ts`. -/
structure ImportPreviewResponse where
  headers : List String
  rows : List ImportPreviewRow
  validRows : Nat
  invalidRows : Nat
deriving DecidableEq, Repr

/-- `ImportPreviewRequest` from `src/lib/types.ts`. -/
structure ImportPreviewRequest where
  type : ImportType
  text : String
deriving DecidableEq, Repr

/-- Property lookup on a row object built by repeated assignment
(`values[header] = ...`): the last assignment wins. -/
def objGet (values : List (String × String)) (k : String) : Option String :=
  (values.reverse.find? (fun p => p.1 = k)).map (fun p => p.2)

/-- One data row of `previewImport`'s loop (`index` is the 0-based position,
the reported line is `index + 2`). -/
def previewRow (headers : List String) (source : SourceType)
    (et : Option ImportEntityType) (s : Store) (index : Nat) (row : List String) :
    ImportPreviewRow :=
  let values := headers.enum.map (fun p => (p.2, row.getD p.1 ""))
  let title := ((objGet values "title").map jsTrim).getD ""
  if title = "" then
    { line := index + 2, values := values, error := some "Missing required title",
      duplicateMatch := Option.none, suggestedAction := ImportAction.skip }
  else
    let duplicateMatch := match et with
      | some e => findDuplicate source e title s
      | Option.none => Option.none
    { line := index + 2, values := values, error := Option.none,
      duplicateMatch := duplicateMatch,
      suggestedAction := suggestedActionOf duplicateMatch }

/-- `previewImport(payload)`: parse, short-circuit on a missing required
header with a single synthetic error row at line 1, otherwise classify every
data row. -/
def previewImport (payload : ImportPreviewRequest) (s : Store) : ImportPreviewResponse :=
  let parsed := parseCsv payload.text
  let missingHeaders := (requiredHeadersByType payload.type).filter
    (fun required => required ∉ parsed.1)
  if missingHeaders ≠ [] then
    { headers := parsed.1
      rows := [{ line := 1, values := [],
                 error := some ("Missing headers: " ++ String.intercalate ", " missingHeaders),
                 duplicateMatch := Option.none, suggestedAction := ImportAction.skip }]
      validRows := 0
      invalidRows := 1 }
  else
    let source := typeToSource payload.type
    let et := typeToEntity payload.type
    let parsedRows := parsed.2.enum.map (fun p => previewRow parsed.1 source et s p.1 p.2)
    let invalidRows := (parsedRows.filter (fun row => row.error ≠ Option.none)).length
    { headers := parsed.1
      rows := parsedRows
      validRows := parsedRows.length - invalidRows
      invalidRows := invalidRows }

/-! ## Operation sequences and the lane-density invariant -/

/-- One user operation of the kind claim C1 ranges over. -/
inductive StoreOp
  | reorder (input : ReorderInput)
  | delete (id : String)
deriving DecidableEq, Repr

/-- Apply one operation to the store (rejected operations leave it as is). -/
def applyOp (s : Store) : StoreOp → Store
  | StoreOp.reorder input => (reorderTasksInLane input s).2
  | StoreOp.delete id => (deleteTask id s).2

/-- Apply a sequence of reorder/delete operations, left to right. -/
def applyOps (s : Store) (ops : List StoreOp) : Store := ops.foldl applyOp s

/-- The lane of status `st`: the task rows bearing that status. -/
def lane (st : TaskStatus) (tasks : List Task) : List Task :=
  tasks.filter (fun t => t.status = st)

/-- A lane of size n is dense when its multiset of `order` values is exactly
{0, ..., n-1}: no duplicates and no gaps. -/
def denseLane (l : List Task) : Prop :=
  List.Perm (l.map Task.order) ((List.range l.length).map Int.ofNat)

/-- Every status lane of the store is dense. -/
def Store.dense (s : Store) : Prop := ∀ st, denseLane (lane st s.tasks)

/-- Referential integrity of task ownership: the Inbox project exists and
every task's `projectId` references an existing project. -/
def Store.ownershipOk (s : Store) : Prop :=
  (∃ p ∈ s.projects, p.id = INBOX_PROJECT_ID) ∧
  ∀ t ∈ s.tasks, ∃ p ∈ s.projects, p.id = t.projectId

/-! ## Similarity matcher: supporting lemmas -/

theorem charPairs_pad_ne_nil (l : List Char) : charPairs (' ' :: l ++ [' ']) ≠ [] := by
  cases l with
  | nil => simp [charPairs]
  | cons a t => simp [charPairs]

theorem bigramSet_card_pos (s : String) : 0 < (bigramSet s).card := by
  rw [Finset.card_pos, bigramSet]
  rcases h : charPairs (' ' :: (TaskMgr.normalize s).data ++ [' ']) with _ | ⟨p, rest⟩
  · exact absurd h (charPairs_pad_ne_nil _)
  · exact ⟨p, by simp⟩

/-- Evaluation helper: Dice similarity from the three set cardinalities. -/
theorem diceSimilarity_eval (a b : String) (m n k : ℕ)
    (hm : (bigramSet a).card = m) (hn : (bigramSet b).card = n)
    (hk : (bigramSet a ∩ bigramSet b).card = k)
    (hm0 : m ≠ 0) (hn0 : n ≠ 0) :
    diceSimilarity a b = (2 * k : ℚ) / (m + n) := by
  simp [diceSimilarity, hm, hn, hk, hm0, hn0]

theorem bigramSet_congr {a b : String}
    (h : TaskMgr.normalize a = TaskMgr.normalize b) : bigramSet a = bigramSet b := by
  unfold bigramSet
  rw [h]

theorem diceSimilarity_eq_one_iff (a b : String) :
    diceSimilarity a b = 1 ↔ bigramSet a = bigramSet b := by
  have hA := bigramSet_card_pos a
  have hB := bigramSet_card_pos b
  have hA0 : (bigramSet a).card ≠ 0 := Nat.pos_iff_ne_zero.mp hA
  have hB0 : (bigramSet b).card ≠ 0 := Nat.pos_iff_ne_zero.mp hB
  rw [diceSimilarity_eval a b _ _ _ rfl rfl rfl hA0 hB0]
  have hsum : ((bigramSet a).card : ℚ) + ((bigramSet b).card : ℚ) ≠ 0 := by
    positivity
  rw [div_eq_one_iff_eq hsum]
  constructor
  · intro h
    have hk : 2 * (bigramSet a ∩ bigramSet b).card =
        (bigramSet a).card + (bigramSet b).card := by exact_mod_cast h
    have h1 : (bigramSet a ∩ bigramSet b).card ≤ (bigramSet a).card :=
      Finset.card_le_card Finset.inter_subset_left
    have h2 : (bigramSet a ∩ bigramSet b).card ≤ (bigramSet b).card :=
      Finset.card_le_card Finset.inter_subset_right
    have ha : (bigramSet a).card ≤ (bigramSet a ∩ bigramSet b).card := by omega
    have hb : (bigramSet b).card ≤ (bigramSet a ∩ bigramSet b).card := by omega
    have hia : bigramSet a ∩ bigramSet b = bigramSet a :=
      Finset.eq_of_subset_of_card_le Finset.inter_subset_left ha
    have hib : bigramSet a ∩ bigramSet b = bigramSet b :=
      Finset.eq_of_subset_of_card_le Finset.inter_subset_right hb
    exact hia ▸ hib
  · intro h
    rw [h, Finset.inter_self]
    ring

/-- C5, corrected: the padded bigram set of any string is nonempty (so the
empty-set guard never fires), and the similarity is 1 exactly when the two
bigram sets coincide; identical normalized strings (empty ones included)
therefore always score 1, but distinct normalized strings can too. -/
theorem dice_one_characterization (a b : String) :
    (bigramSet a).Nonempty ∧
    (diceSimilarity a b = 1 ↔ bigramSet a = bigramSet b) ∧
    (TaskMgr.normalize a = TaskMgr.normalize b → diceSimilarity a b = 1) := by
  refine ⟨Finset.card_pos.mp (bigramSet_card_pos a), diceSimilarity_eq_one_iff a b, ?_⟩
  intro h
  exact (diceSimilarity_eq_one_iff a b).mpr (bigramSet_congr h)

/-- C5, counterexample to the claim as stated: `""` and `""` have identical
but *empty* normalized forms and still score 1.0, and `"xyx"` and `"xyxyx"`
have different normalized forms and still score 1.0 (their padded bigram
sets coincide), refuting "1.0 iff the normalized forms are identical and
non-empty" in both directions. -/
theorem dice_one_claim_counterexample :
    diceSimilarity "" "" = 1 ∧ TaskMgr.normalize "" = "" ∧
    diceSimilarity "xyx" "xyxyx" = 1 ∧
    TaskMgr.normalize "xyx" ≠ TaskMgr.normalize "xyxyx" := by
  refine ⟨?_, by decide, ?_, by decide⟩
  · rw [diceSimilarity_eval "" "" 1 1 1 (by decide) (by decide) (by decide)
      (by decide) (by decide)]
    norm_num
  · rw [diceSimilarity_eval "xyx" "xyxyx" 4 4 4 (by decide) (by decide) (by decide)
      (by decide) (by decide)]
    norm_num

/-! ## Duplicate resolver: supporting lemmas -/

theorem scanStep_fold_spec (title : String) (cands : List (String × String)) :
    ∀ b : String × String × ℚ,
    ∃ r, cands.foldl (scanStep title) (some b) = some r ∧
      (r = b ∨ ∃ c ∈ cands, r = (c.1, c.2, diceSimilarity c.2 title)) ∧
      b.2.2 ≤ r.2.2 ∧
      ∀ c ∈ cands, diceSimilarity c.2 title ≤ r.2.2 := by
  induction cands with
  | nil => exact fun b => ⟨b, rfl, Or.inl rfl, le_refl _, by simp⟩
  | cons c t ih =>
    intro b
    by_cases h : diceSimilarity c.2 title > b.2.2
    · have hstep : scanStep title (some b) c = some (c.1, c.2, diceSimilarity c.2 title) := by
        simp [scanStep, h]
      obtain ⟨r, hr, hw, hle, hub⟩ := ih (c.1, c.2, diceSimilarity c.2 title)
      refine ⟨r, by simpa [hstep] using hr, ?_, le_trans (le_of_lt h) hle, ?_⟩
      · rcases hw with h1 | ⟨c', hc', he⟩
        · exact Or.inr ⟨c, List.mem_cons_self c t, h1⟩
        · exact Or.inr ⟨c', List.mem_cons_of_mem _ hc', he⟩
      · intro c' hc'
        rcases List.mem_cons.mp hc' with rfl | hmem
        · simpa using hle
        · exact hub c' hmem
    · have hstep : scanStep title (some b) c = some b := by
        simp [scanStep, h]
      obtain ⟨r, hr, hw, hle, hub⟩ := ih b
      refine ⟨r, by simpa [hstep] using hr, ?_, hle, ?_⟩
      · rcases hw with h1 | ⟨c', hc', he⟩
        · exact Or.inl h1
        · exact Or.inr ⟨c', List.mem_cons_of_mem _ hc', he⟩
      · intro c' hc'
        rcases List.mem_cons.mp hc' with rfl | hmem
        · exact le_trans (le_of_not_lt h) hle
        · exact hub c' hmem

theorem scanBest_spec (cands : List (String × String)) (title : String)
    (hne : cands ≠ []) :
    ∃ r, scanBest cands title = some r ∧
      (∃ c ∈ cands, r = (c.1, c.2, diceSimilarity c.2 title)) ∧
      ∀ c ∈ cands, diceSimilarity c.2 title ≤ r.2.2 := by
  match cands with
  | [] => exact absurd rfl hne
  | c :: t =>
    have hstep : scanStep title Option.none c = some (c.1, c.2, diceSimilarity c.2 title) := by
      simp [scanStep]
    obtain ⟨r, hr, hw, hle, hub⟩ := scanStep_fold_spec title t (c.1, c.2, diceSimilarity c.2 title)
    refine ⟨r, by simpa [scanBest, hstep] using hr, ?_, ?_⟩
    · rcases hw with h1 | ⟨c', hc', he⟩
      · exact ⟨c, List.mem_cons_self c t, h1⟩
      · exact ⟨c', List.mem_cons_of_mem _ hc', he⟩
    · intro c' hc'
      rcases List.mem_cons.mp hc' with rfl | hmem
      · simpa using hle
      · exact hub c' hmem

/-- C7: an exact normalized-title candidate in the scoped pool always wins,
with kind `exact` and score 1, regardless of the other candidates. -/
theorem findDuplicate_exact_precedence (source : SourceType) (et : ImportEntityType)
    (title : String) (s : Store)
    (h : ∃ c ∈ scopedPool source et s, TaskMgr.normalize c.2 = TaskMgr.normalize title) :
    ∃ m, findDuplicate source et title s = some m ∧
      m.kind = MatchKind.exact ∧ m.score = 1 := by
  have hs : ((scopedPool source et s).find?
      (fun c => TaskMgr.normalize c.2 = TaskMgr.normalize title)).isSome := by
    rw [List.find?_isSome]
    obtain ⟨c, hc, he⟩ := h
    exact ⟨c, hc, by simpa using he⟩
  obtain ⟨e, he⟩ := Option.isSome_iff_exists.mp hs
  exact ⟨{ entityType := et, id := e.1, title := e.2, score := 1, kind := MatchKind.exact },
    by simp [findDuplicate, findDupOn, he], rfl, rfl⟩

/-- C7 witness: a pool containing a case/punctuation-insensitively equal
title yields an exact match with score 1. -/
theorem findDuplicate_exact_precedence_witness :
    (∃ c ∈ scopedPool SourceType.apple_reminders ImportEntityType.task
        { projects := [], tasks := [{
            id := "D", title := "Water plants", details := Option.none,
            status := TaskStatus.todo, priority := Priority.medium,
            dueDate := Option.none, scheduledAt := Option.none, completedAt := Option.none,
            projectId := "proj-inbox", source := SourceType.apple_reminders, order := 0,
            recurrence := Recurrence.none, createdAt := 0, updatedAt := 0 }],
          now := 5, nextId := 0 },
        TaskMgr.normalize c.2 = TaskMgr.normalize "Water  PLANTS!") ∧
    (∃ m, findDuplicate SourceType.apple_reminders ImportEntityType.task "Water  PLANTS!"
        { projects := [], tasks := [{
            id := "D", title := "Water plants", details := Option.none,
            status := TaskStatus.todo, priority := Priority.medium,
            dueDate := Option.none, scheduledAt := Option.none, completedAt := Option.none,
            projectId := "proj-inbox", source := SourceType.apple_reminders, order := 0,
            recurrence := Recurrence.none, createdAt := 0, updatedAt := 0 }],
          now := 5, nextId := 0 } = some m ∧
      m.kind = MatchKind.exact ∧ m.score = 1) := by
  refine ⟨by decide, findDuplicate_exact_precedence _ _ _ _ (by decide)⟩

/-- C6: with no exact normalized-equal candidate in the scoped pool, the
result is a fuzzy match exactly when the maximum Dice similarity `M` over
the candidates reaches the fixed 0.72 threshold (scores of exactly 0.72
included, anything below excluded), carrying `M` rounded to two decimals the
way `Number(score.toFixed(2))` rounds it: `toFixed` acts on the binary64
double holding the score (so 0.725, stored as 0.72499999999999997…, rounds
down to 0.72) and the two-decimal result is re-parsed to a double; below the
threshold the result is none. -/
theorem findDuplicate_fuzzy_threshold (source : SourceType) (et : ImportEntityType)
    (title : String) (s : Store) (M : ℚ)
    (hnx : ∀ c ∈ scopedPool source et s, TaskMgr.normalize c.2 ≠ TaskMgr.normalize title)
    (hmem : M ∈ (scopedPool source et s).map (fun c => diceSimilarity c.2 title))
    (hub : ∀ c ∈ scopedPool source et s, diceSimilarity c.2 title ≤ M) :
    (72/100 ≤ M → ∃ m, findDuplicate source et title s = some m ∧
        m.kind = MatchKind.fuzzy ∧ m.score = jsToFixed2Number M) ∧
    (M < 72/100 → findDuplicate source et title s = Option.none) := by
  have hfind : (scopedPool source et s).find?
      (fun c => TaskMgr.normalize c.2 = TaskMgr.normalize title) = Option.none := by
    rw [List.find?_eq_none]
    intro c hc
    simpa using hnx c hc
  have hne : scopedPool source et s ≠ [] := by
    rcases List.mem_map.mp hmem with ⟨c, hc, _⟩
    exact List.ne_nil_of_mem hc
  obtain ⟨r, hr, ⟨c0, hc0, he0⟩, hub'⟩ := scanBest_spec _ title hne
  have hrM : r.2.2 = M := by
    apply le_antisymm
    · rw [he0]
      exact hub c0 hc0
    · rcases List.mem_map.mp hmem with ⟨c1, hc1, he1⟩
      rw [← he1]
      exact hub' c1 hc1
  constructor
  · intro hth
    refine ⟨{ entityType := et, id := r.1, title := r.2.1,
              score := jsToFixed2Number r.2.2, kind := MatchKind.fuzzy }, ?_, rfl, by rw [hrM]⟩
    simp only [findDuplicate, findDupOn, hfind, hr]
    rw [if_pos (by rw [hrM]; exact hth)]
  · intro hth
    simp only [findDuplicate, findDupOn, hfind, hr]
    rw [if_neg (by rw [hrM]; exact not_le.mpr hth)]

/-- A sample pool for exercising the fuzzy-threshold branch: one
`apple_reminders` task titled "Pay rental". -/
def sampleFuzzyStore : Store :=
  { projects := []
    tasks := [{
      id := "E", title := "Pay rental", details := Option.none,
      status := TaskStatus.todo, priority := Priority.medium,
      dueDate := Option.none, scheduledAt := Option.none, completedAt := Option.none,
      projectId := "proj-inbox", source := SourceType.apple_reminders, order := 0,
      recurrence := Recurrence.none, createdAt := 0, updatedAt := 0 }]
    now := 5
    nextId := 0 }

/-- C6 witness: against the pool {"Pay rental"}, the title "pay rent" has
maximum Dice similarity 4/5 = 0.8 ≥ 0.72 and is fuzzy-matched, the score
being the `toFixed(2)` rounding of the double holding the maximum. -/
theorem findDuplicate_fuzzy_threshold_witness :
    (∀ c ∈ scopedPool SourceType.apple_reminders ImportEntityType.task sampleFuzzyStore,
      TaskMgr.normalize c.2 ≠ TaskMgr.normalize "pay rent") ∧
    ((4/5 : ℚ) ∈ (scopedPool SourceType.apple_reminders ImportEntityType.task
        sampleFuzzyStore).map (fun c => diceSimilarity c.2 "pay rent")) ∧
    (∀ c ∈ scopedPool SourceType.apple_reminders ImportEntityType.task sampleFuzzyStore,
      diceSimilarity c.2 "pay rent" ≤ (4/5 : ℚ)) ∧
    ((72/100 ≤ (4/5 : ℚ) → ∃ m, findDuplicate SourceType.apple_reminders
        ImportEntityType.task "pay rent" sampleFuzzyStore = some m ∧
        m.kind = MatchKind.fuzzy ∧ m.score = jsToFixed2Number (4/5 : ℚ)) ∧
      ((4/5 : ℚ) < 72/100 → findDuplicate SourceType.apple_reminders
        ImportEntityType.task "pay rent" sampleFuzzyStore = Option.none)) := by
  have hpool : scopedPool SourceType.apple_reminders ImportEntityType.task
      sampleFuzzyStore = [("E", "Pay rental")] := by decide
  have hdice : diceSimilarity "Pay rental" "pay rent" = 4/5 := by
    rw [diceSimilarity_eval "Pay rental" "pay rent" 11 9 8 (by decide) (by decide)
      (by decide) (by decide) (by decide)]
    norm_num
  have h1 : ∀ c ∈ scopedPool SourceType.apple_reminders ImportEntityType.task
      sampleFuzzyStore, TaskMgr.normalize c.2 ≠ TaskMgr.normalize "pay rent" := by decide
  have h2 : (4/5 : ℚ) ∈ (scopedPool SourceType.apple_reminders ImportEntityType.task
      sampleFuzzyStore).map (fun c => diceSimilarity c.2 "pay rent") := by
    rw [hpool]
    simp [hdice]
  have h3 : ∀ c ∈ scopedPool SourceType.apple_reminders ImportEntityType.task
      sampleFuzzyStore, diceSimilarity c.2 "pay rent" ≤ (4/5 : ℚ) := by
    intro c hc
    rw [hpool] at hc
    rw [List.mem_singleton.mp hc, hdice]
  exact ⟨h1, h2, h3,
    findDuplicate_fuzzy_threshold SourceType.apple_reminders ImportEntityType.task
      "pay rent" sampleFuzzyStore (4/5 : ℚ) h1 h2 h3⟩

/-- C8: when the parsed header list lacks the required `title` header, the
preview short-circuits to exactly one synthetic row at line 1 carrying an
error, with 0 valid and 1 invalid rows, regardless of the data lines. -/
theorem previewImport_missing_title (payload : ImportPreviewRequest) (s : Store)
    (h : "title" ∉ (parseCsv payload.text).1) :
    (previewImport payload s).rows.length = 1 ∧
    (∀ row ∈ (previewImport payload s).rows, row.line = 1 ∧ row.error ≠ Option.none) ∧
    (previewImport payload s).validRows = 0 ∧
    (previewImport payload s).invalidRows = 1 := by
  have hreq : requiredHeadersByType payload.type = ["title"] := by
    cases payload.type <;> rfl
  have hmiss : (requiredHeadersByType payload.type).filter
      (fun required => required ∉ (parseCsv payload.text).1) = ["title"] := by
    rw [hreq]
    simp [h]
  simp only [previewImport, hmiss]
  rw [if_pos (by simp : (["title"] : List String) ≠ [])]
  refine ⟨rfl, ?_, rfl, rfl⟩
  intro row hrow
  rw [List.mem_singleton.mp hrow]
  exact ⟨rfl, by simp⟩

/-- C8 witness: a three-line input without a `title` header yields the single
synthetic error row. -/
theorem previewImport_missing_title_witness :
    ("title" ∉ (parseCsv "name,notes\nx,y\nz,w").1) ∧
    ((previewImport { type := ImportType.apple_reminders, text := "name,notes\nx,y\nz,w" }
        { projects := [], tasks := [], now := 0, nextId := 0 }).rows.length = 1 ∧
      (∀ row ∈ (previewImport { type := ImportType.apple_reminders, text := "name,notes\nx,y\nz,w" }
          { projects := [], tasks := [], now := 0, nextId := 0 }).rows,
        row.line = 1 ∧ row.error ≠ Option.none) ∧
      (previewImport { type := ImportType.apple_reminders, text := "name,notes\nx,y\nz,w" }
        { projects := [], tasks := [], now := 0, nextId := 0 }).validRows = 0 ∧
      (previewImport { type := ImportType.apple_reminders, text := "name,notes\nx,y\nz,w" }
        { projects := [], tasks := [], now := 0, nextId := 0 }).invalidRows = 1) := by
  exact ⟨by decide, previewImport_missing_title _ _ (by decide)⟩

/-! ## Lane-engine supporting lemmas -/

theorem mem_dedupFirstAux {x : String} :
    ∀ {l seen : List String}, x ∈ dedupFirstAux seen l ↔ (x ∈ l ∧ x ∉ seen) := by
  intro l
  induction l with
  | nil => intro seen; simp [dedupFirstAux]
  | cons a t ih =>
    intro seen
    by_cases ha : a ∈ seen
    · rw [dedupFirstAux, if_pos ha, ih]
      constructor
      · rintro ⟨hx, hns⟩
        exact ⟨List.mem_cons_of_mem _ hx, hns⟩
      · rintro ⟨hx, hns⟩
        rcases List.mem_cons.mp hx with rfl | hx
        · exact absurd ha hns
        · exact ⟨hx, hns⟩
    · rw [dedupFirstAux, if_neg ha]
      constructor
      · intro hx
        rcases List.mem_cons.mp hx with rfl | hx
        · exact ⟨List.mem_cons_self _ _, ha⟩
        · obtain ⟨h1, h2⟩ := ih.mp hx
          refine ⟨List.mem_cons_of_mem _ h1, fun hs => h2 (List.mem_cons_of_mem _ hs)⟩
      · rintro ⟨hx, hns⟩
        rcases List.mem_cons.mp hx with rfl | hx
        · exact List.mem_cons_self _ _
        · by_cases hxa : x = a
          · subst hxa
            exact List.mem_cons_self _ _
          · exact List.mem_cons_of_mem _ (ih.mpr ⟨hx, by
              intro hs
              rcases List.mem_cons.mp hs with h | h
              · exact hxa h
              · exact hns h⟩)

theorem mem_dedupFirst {x : String} {l : List String} : x ∈ dedupFirst l ↔ x ∈ l := by
  rw [dedupFirst, mem_dedupFirstAux]
  simp

theorem nodup_dedupFirstAux : ∀ (l seen : List String), (dedupFirstAux seen l).Nodup := by
  intro l
  induction l with
  | nil => intro seen; simp [dedupFirstAux]
  | cons a t ih =>
    intro seen
    by_cases ha : a ∈ seen
    · rw [dedupFirstAux, if_pos ha]
      exact ih seen
    · rw [dedupFirstAux, if_neg ha]
      refine List.nodup_cons.mpr ⟨?_, ih (a :: seen)⟩
      intro hmem
      exact (mem_dedupFirstAux.mp hmem).2 (List.mem_cons_self _ _)

theorem nodup_dedupFirst (l : List String) : (dedupFirst l).Nodup :=
  nodup_dedupFirstAux l []

theorem posOf_eq_none_iff {x : String} : ∀ {l : List String},
    posOf l x = Option.none ↔ x ∉ l := by
  intro l
  induction l with
  | nil => simp [posOf]
  | cons a t ih =>
    by_cases ha : a = x
    · simp [posOf, ha]
    · rw [posOf, if_neg ha]
      simp only [Option.map_eq_none', ih, List.mem_cons]
      constructor
      · intro h hx
        rcases hx with h1 | h1
        · exact ha h1.symm
        · exact h h1
      · intro h hx
        exact h (Or.inr hx)

theorem posOf_isSome_of_mem {x : String} {l : List String} (h : x ∈ l) :
    ∃ i, posOf l x = some i := by
  rcases hp : posOf l x with _ | i
  · exact absurd (posOf_eq_none_iff.mp hp) (not_not_intro h)
  · exact ⟨i, rfl⟩

theorem posOf_map_getD_nodup : ∀ {l : List String}, l.Nodup →
    l.map (fun x => (posOf l x).getD 0) = List.range l.length := by
  intro l
  induction l with
  | nil => intro _; rfl
  | cons a t ih =>
    intro hnd
    have hat : a ∉ t := (List.nodup_cons.mp hnd).1
    have hnt : t.Nodup := (List.nodup_cons.mp hnd).2
    rw [List.map_cons, List.length_cons, List.range_succ_eq_map]
    congr 1
    · simp [posOf]
    · rw [← ih hnt, List.map_map]
      apply List.map_congr_left
      intro x hx
      have hax : a ≠ x := fun he => hat (he ▸ hx)
      obtain ⟨i, hi⟩ := posOf_isSome_of_mem hx
      simp [posOf, hax, hi, Nat.succ_eq_add_one]

theorem touchMap_map_id (ids : List String) (upd : Task → Nat → Task)
    (tasks : List Task) (h : ∀ t i, (upd t i).id = t.id) :
    (touchMap ids upd tasks).map Task.id = tasks.map Task.id := by
  rw [touchMap, List.map_map]
  apply List.map_congr_left
  intro t _
  rcases hp : posOf ids t.id with _ | i <;> simp [hp, h]

theorem touchMap_length (ids : List String) (upd : Task → Nat → Task)
    (tasks : List Task) : (touchMap ids upd tasks).length = tasks.length := by
  rw [touchMap, List.length_map]

theorem touchMap_map_id_order (ids : List String) (tasks : List Task) :
    (touchMap ids (fun t i => { t with order := (i : Int) }) tasks).map Task.id =
      tasks.map Task.id :=
  touchMap_map_id _ _ _ (fun _ _ => rfl)

theorem touchMap_map_id_move (ids : List String) (st : TaskStatus) (ts : Nat)
    (tasks : List Task) :
    (touchMap ids (fun t i => { t with status := st, order := (i : Int), updatedAt := ts })
      tasks).map Task.id = tasks.map Task.id :=
  touchMap_map_id _ _ _ (fun _ _ => rfl)

/-- C2, corrected: `reorderTasksInLane` never creates (or deletes) any task —
the rows' ids are preserved verbatim by every call, accepted or rejected, so
no recurrence successor is ever spawned by a reorder; the Recurrence Spawner
runs only inside `updateTask`. -/
theorem reorderTx_map_id (input : ReorderInput) (movedStatus : TaskStatus)
    (orderedIds : List String) (ts : Nat) (tasks : List Task) :
    (reorderTx input movedStatus orderedIds ts tasks).map Task.id = tasks.map Task.id := by
  unfold reorderTx
  simp only
  split
  · rw [touchMap_map_id_order, touchMap_map_id_move, List.map_map]
    apply List.map_congr_left
    intro t _
    by_cases ht : t.id = input.movedTaskId <;> simp [ht]
  · rw [touchMap_map_id_move, List.map_map]
    apply List.map_congr_left
    intro t _
    by_cases ht : t.id = input.movedTaskId <;> simp [ht]

theorem reorderTasksInLane_no_spawn (input : ReorderInput) (s : Store) :
    ((reorderTasksInLane input s).2).tasks.map Task.id = s.tasks.map Task.id ∧
    ((reorderTasksInLane input s).2).tasks.length = s.tasks.length := by
  have hmain : ((reorderTasksInLane input s).2).tasks.map Task.id = s.tasks.map Task.id := by
    unfold reorderTasksInLane
    rcases hf : s.tasks.find? (fun t => t.id = input.movedTaskId) with _ | moved
    · rw [hf]
    · rw [hf]
      simp only
      split
      · rfl
      · split
        · rfl
        · split
          · rfl
          · exact reorderTx_map_id input moved.status _ s.now s.tasks
  refine ⟨hmain, ?_⟩
  have := congrArg List.length hmain
  simpa using this

/-- The two-task store used to exhibit the missing reorder-side spawning:
"A" is a daily-recurring task with a due date sitting in `todo`, "C" sits in
`done`. -/
def cexTaskA : Task where
  id := "A"
  title := "Water plants"
  details := Option.none
  status := TaskStatus.todo
  priority := Priority.medium
  dueDate := some (DateVal.valid 1000)
  scheduledAt := Option.none
  completedAt := Option.none
  projectId := "proj-inbox"
  source := SourceType.mission_control
  order := 0
  recurrence := Recurrence.daily
  createdAt := 0
  updatedAt := 0

/-- The completed companion task of the spawning counterexample store. -/
def cexTaskC : Task where
  id := "C"
  title := "Done already"
  details := Option.none
  status := TaskStatus.done
  priority := Priority.medium
  dueDate := Option.none
  scheduledAt := Option.none
  completedAt := Option.none
  projectId := "proj-inbox"
  source := SourceType.mission_control
  order := 0
  recurrence := Recurrence.none
  createdAt := 0
  updatedAt := 0

/-- The store holding `cexTaskA` and `cexTaskC`. -/
def cexStoreSpawn : Store where
  projects := []
  tasks := [cexTaskA, cexTaskC]
  now := 10
  nextId := 0

/-- C2, counterexample to the claim as stated: moving the daily-recurring,
due-dated task "A" from `todo` into `done` via an accepted reorder leaves
the store with the same two tasks (no successor is created), while the very
same transition through `updateTask` spawns one. -/
theorem reorder_done_no_spawn_counterexample :
    ((reorderTasksInLane
      { movedTaskId := "A", toStatus := TaskStatus.done, orderedTaskIds := ["A", "C"] }
      cexStoreSpawn).1).isSome = true ∧
    ((reorderTasksInLane
      { movedTaskId := "A", toStatus := TaskStatus.done, orderedTaskIds := ["A", "C"] }
      cexStoreSpawn).2).tasks.length = 2 ∧
    ((updateTask "A" { status := some TaskStatus.done } cexStoreSpawn).2).tasks.length = 3 := by
  refine ⟨by decide, by decide, by decide⟩

/-- C3: when some id in `orderedTaskIds` other than the moved task's id
belongs to a task whose status differs from `toStatus`, the whole reorder is
rejected — it returns `null` and the store is left completely unchanged
(every validation happens before the transaction writes anything).
`Store.wfT` records the `tasks.id` primary key (no duplicate and no empty
ids, as produced by `createId`). -/
theorem reorderTasksInLane_foreign_reject (input : ReorderInput) (s : Store)
    (hwf : s.wfT)
    (h : ∃ fid ∈ input.orderedTaskIds, fid ≠ input.movedTaskId ∧
      ∃ t ∈ s.tasks, t.id = fid ∧ t.status ≠ input.toStatus) :
    reorderTasksInLane input s = (Option.none, s) := by
  unfold reorderTasksInLane
  rcases hf : s.tasks.find? (fun t => t.id = input.movedTaskId) with _ | moved
  · rw [hf]
  · rw [hf]
    simp only
    by_cases hmem : input.movedTaskId ∈ dedupFirst (input.orderedTaskIds.filter (fun i => i ≠ ""))
    · rw [if_neg (not_not_intro hmem)]
      obtain ⟨fid, hfid_mem, hfid_ne, t, ht_mem, ht_id, ht_st⟩ := h
      have hfid_ne_empty : fid ≠ "" := ht_id ▸ hwf.2 t ht_mem
      have hfid_in : fid ∈ dedupFirst (input.orderedTaskIds.filter (fun i => i ≠ "")) := by
        rw [mem_dedupFirst, List.mem_filter]
        exact ⟨hfid_mem, by simpa using hfid_ne_empty⟩
      have ht_rows : t ∈ s.tasks.filter
          (fun t => t.id ∈ dedupFirst (input.orderedTaskIds.filter (fun i => i ≠ ""))) := by
        rw [List.mem_filter]
        refine ⟨ht_mem, ?_⟩
        rw [decide_eq_true_eq, ht_id]
        exact hfid_in
      have hany : (s.tasks.filter
          (fun t => t.id ∈ dedupFirst (input.orderedTaskIds.filter (fun i => i ≠ "")))).any
          (fun r => r.id ≠ input.movedTaskId ∧ r.status ≠ input.toStatus) = true := by
        rw [List.any_eq_true]
        exact ⟨t, ht_rows, by simp [ht_id, hfid_ne, ht_st]⟩
      have hlen0 : (dedupFirst (input.orderedTaskIds.filter (fun i => i ≠ ""))).length ≠ 0 :=
        fun h0 => (List.ne_nil_of_mem hmem) (List.length_eq_zero.mp h0)
      by_cases hlen : (s.tasks.filter
          (fun t => t.id ∈ dedupFirst (input.orderedTaskIds.filter (fun i => i ≠ "")))).length ≠
            (dedupFirst (input.orderedTaskIds.filter (fun i => i ≠ ""))).length
      · rw [if_pos ⟨hlen0, hlen⟩]
      · rw [if_neg (fun hc => hlen hc.2), if_pos ⟨hlen0, hany⟩]
    · rw [if_pos hmem]

/-- C3 witness: asking to move "A" into `todo` while listing the `done` task
"C" in the ordering is rejected outright with the store untouched. -/
theorem reorderTasksInLane_foreign_reject_witness :
    cexStoreSpawn.wfT ∧
    (∃ fid ∈ ["A", "C"], fid ≠ "A" ∧
      ∃ t ∈ cexStoreSpawn.tasks, t.id = fid ∧ t.status ≠ TaskStatus.todo) ∧
    reorderTasksInLane
      { movedTaskId := "A", toStatus := TaskStatus.todo, orderedTaskIds := ["A", "C"] }
      cexStoreSpawn = (Option.none, cexStoreSpawn) := by
  have hwf : cexStoreSpawn.wfT := ⟨by decide, by decide⟩
  have hfid : ∃ fid ∈ ["A", "C"], fid ≠ "A" ∧
      ∃ t ∈ cexStoreSpawn.tasks, t.id = fid ∧ t.status ≠ TaskStatus.todo := by decide
  exact ⟨hwf, hfid, reorderTasksInLane_foreign_reject _ _ hwf hfid⟩

/-- C10: every successful `updateTask` computes the written row's
`completed_at` from the resulting status alone — a fresh `new Date()`
timestamp (the operation's clock value) whenever the resulting status is
`done` (whether or not the patch mentioned `status`), and `null` otherwise;
the previous value is never preserved.  The returned `item` is exactly the
row the `UPDATE` statement writes. -/
theorem updateTask_completedAt (id : String) (patch : TaskPatch) (s : Store)
    (item : Task) (h : (updateTask id patch s).1 = some item) :
    item.completedAt =
      (if item.status = TaskStatus.done then some s.now else Option.none) := by
  unfold updateTask at h
  split at h
  · exact absurd h (by simp)
  · split at h
    · exact absurd h (by simp)
    · simp only at h
      rw [← Option.some.inj h]

/-- The row value `updateTask` writes when completing "A" in
`cexStoreSpawn`. -/
def cexDoneItem : Task where
  id := "A"
  title := "Water plants"
  details := Option.none
  status := TaskStatus.done
  priority := Priority.medium
  dueDate := some (DateVal.valid 1000)
  scheduledAt := Option.none
  completedAt := some 10
  projectId := "proj-inbox"
  source := SourceType.mission_control
  order := 1
  recurrence := Recurrence.daily
  createdAt := 0
  updatedAt := 10

/-- C10 witness: completing "A" stamps `completed_at` with the operation's
clock value. -/
theorem updateTask_completedAt_witness :
    (updateTask "A" { status := some TaskStatus.done } cexStoreSpawn).1 = some cexDoneItem ∧
    cexDoneItem.completedAt =
      (if cexDoneItem.status = TaskStatus.done then some cexStoreSpawn.now else Option.none) := by
  have h : (updateTask "A" { status := some TaskStatus.done } cexStoreSpawn).1 =
      some cexDoneItem := by decide
  exact ⟨h, updateTask_completedAt "A" _ cexStoreSpawn _ h⟩

theorem id_inj_of_nodup {tasks : List Task} (hnd : (tasks.map Task.id).Nodup)
    {t u : Task} (ht : t ∈ tasks) (hu : u ∈ tasks) (h : t.id = u.id) : t = u :=
  List.inj_on_of_nodup_map hnd ht hu h

theorem denseLane_of_posOf (ids : List String) (hnd : ids.Nodup) (l : List Task)
    (hid : List.Perm (l.map Task.id) ids)
    (hord : ∀ t ∈ l, t.order = ((posOf ids t.id).getD 0 : Int)) :
    denseLane l := by
  unfold denseLane
  have hlen : l.length = ids.length := by
    have h := hid.length_eq
    simpa using h
  have h1 : l.map Task.order = (l.map Task.id).map (fun x => ((posOf ids x).getD 0 : Int)) := by
    rw [List.map_map]
    exact List.map_congr_left (fun t ht => hord t ht)
  have h2 := hid.map (fun x => ((posOf ids x).getD 0 : Int))
  have h3 : ids.map (fun x => ((posOf ids x).getD 0 : Int)) =
      (List.range ids.length).map Int.ofNat := by
    have h4 := posOf_map_getD_nodup hnd
    rw [← h4, List.map_map]
    rfl
  rw [h1, hlen]
  exact h3 ▸ h2

theorem lane_touchMap_comm (ids : List String) (tasks : List Task) (st : TaskStatus) :
    lane st (touchMap ids (fun t i => { t with order := (i : Int) }) tasks) =
      touchMap ids (fun t i => { t with order := (i : Int) }) (lane st tasks) := by
  unfold lane touchMap
  rw [List.filter_map]
  congr 1
  apply List.filter_congr
  intro t _
  rcases hp : posOf ids t.id with _ | i <;> simp [Function.comp, hp]

theorem touchMap_eq_self_of_disjoint (ids : List String) (upd : Task → Nat → Task)
    (tasks : List Task) (h : ∀ t ∈ tasks, t.id ∉ ids) :
    touchMap ids upd tasks = tasks := by
  unfold touchMap
  conv_rhs => rw [← List.map_id tasks]
  apply List.map_congr_left
  intro t ht
  have hnone := posOf_eq_none_iff.mpr (h t ht)
  simp [hnone]

theorem denseLane_touchMap_orderOnly (ids : List String) (tasks : List Task)
    (st : TaskStatus) (hnd : ids.Nodup)
    (hids : List.Perm ((lane st tasks).map Task.id) ids) :
    denseLane (lane st (touchMap ids (fun t i => { t with order := (i : Int) }) tasks)) := by
  rw [lane_touchMap_comm]
  apply denseLane_of_posOf ids hnd
  · rw [touchMap_map_id_order]
    exact hids
  · intro t' ht'
    rw [touchMap] at ht'
    obtain ⟨t, ht, rfl⟩ := List.mem_map.mp ht'
    have htid : t.id ∈ ids := hids.mem_iff.mp (List.mem_map_of_mem Task.id ht)
    obtain ⟨i, hi⟩ := posOf_isSome_of_mem htid
    simp [hi]

theorem lane_touchMap_orderOnly_other (ids : List String) (tasks : List Task)
    (st : TaskStatus)
    (hdisj : ∀ t ∈ tasks, t.status = st → t.id ∉ ids) :
    lane st (touchMap ids (fun t i => { t with order := (i : Int) }) tasks) =
      lane st tasks := by
  rw [lane_touchMap_comm]
  apply touchMap_eq_self_of_disjoint
  intro t ht
  have hm := List.mem_filter.mp ht
  exact hdisj t hm.1 (by simpa using hm.2)

theorem lane_touchMap_move_other (ids : List String) (tasks : List Task)
    (st toSt : TaskStatus) (ts : Nat) (hne : st ≠ toSt)
    (hdisj : ∀ t ∈ tasks, t.status = st → t.id ∉ ids) :
    lane st (touchMap ids
      (fun t i => { t with status := toSt, order := (i : Int), updatedAt := ts }) tasks) =
      lane st tasks := by
  unfold lane touchMap
  rw [List.filter_map]
  have hpred : ∀ t ∈ tasks,
      ((fun t => decide (t.status = st)) ∘ (fun t =>
        match posOf ids t.id with
        | some i => { t with status := toSt, order := (i : Int), updatedAt := ts }
        | Option.none => t)) t = decide (t.status = st) := by
    intro t ht
    rcases hp : posOf ids t.id with _ | i
    · simp [Function.comp, hp]
    · have hmem : t.id ∈ ids := by
        by_contra hc
        rw [posOf_eq_none_iff.mpr hc] at hp
        exact Option.noConfusion hp
      have hst : t.status ≠ st := fun hs => hdisj t ht hs hmem
      have hne' : ¬(toSt = st) := fun h => hne h.symm
      simp [Function.comp, hp, hne', hst]
  rw [List.filter_congr hpred]
  conv_rhs => rw [← List.map_id (tasks.filter (fun t => decide (t.status = st)))]
  apply List.map_congr_left
  intro t ht
  have hm := List.mem_filter.mp ht
  have : t.id ∉ ids := hdisj t hm.1 (by simpa using hm.2)
  simp [posOf_eq_none_iff.mpr this]

theorem denseLane_touchMap_move (ids : List String) (tasks : List Task)
    (toSt : TaskStatus) (ts : Nat)
    (hnd : ids.Nodup)
    (hnd_tasks : (tasks.map Task.id).Nodup)
    (hcover : ∀ t ∈ tasks, t.status = toSt → t.id ∈ ids)
    (hex : ∀ x ∈ ids, ∃ t ∈ tasks, t.id = x) :
    denseLane (lane toSt (touchMap ids
      (fun t i => { t with status := toSt, order := (i : Int), updatedAt := ts }) tasks)) := by
  have hlane : lane toSt (touchMap ids
      (fun t i => { t with status := toSt, order := (i : Int), updatedAt := ts }) tasks) =
      touchMap ids (fun t i => { t with status := toSt, order := (i : Int), updatedAt := ts })
        (tasks.filter (fun t => t.id ∈ ids)) := by
    unfold lane touchMap
    rw [List.filter_map]
    congr 1
    apply List.filter_congr
    intro t ht
    rcases hp : posOf ids t.id with _ | i
    · have hnotin : t.id ∉ ids := posOf_eq_none_iff.mp hp
      have hst : t.status ≠ toSt := fun hs => hnotin (hcover t ht hs)
      simp [Function.comp, hp, hst, hnotin]
    · have hmem : t.id ∈ ids := by
        by_contra hc
        rw [posOf_eq_none_iff.mpr hc] at hp
        exact Option.noConfusion hp
      simp [Function.comp, hp, hmem]
  rw [hlane]
  apply denseLane_of_posOf ids hnd
  · rw [touchMap_map_id_move]
    refine (List.perm_ext_iff_of_nodup ?_ hnd).mpr ?_
    · exact ((List.filter_sublist tasks).map Task.id).nodup hnd_tasks
    · intro x
      constructor
      · intro hx
        obtain ⟨t, ht, rfl⟩ := List.mem_map.mp hx
        simpa using (List.mem_filter.mp ht).2
      · intro hx
        obtain ⟨t, ht, hid⟩ := hex x hx
        exact List.mem_map.mpr ⟨t, List.mem_filter.mpr ⟨ht, by simp [hid, hx]⟩, hid⟩
  · intro t' ht'
    rw [touchMap] at ht'
    obtain ⟨t, ht, rfl⟩ := List.mem_map.mp ht'
    have hmem : t.id ∈ ids := by simpa using (List.mem_filter.mp ht).2
    obtain ⟨i, hi⟩ := posOf_isSome_of_mem hmem
    simp [hi]

theorem exists_task_of_filter_length (tasks : List Task) (ids : List String)
    (hnd_t : (tasks.map Task.id).Nodup)
    (hlen : (tasks.filter (fun t => t.id ∈ ids)).length = ids.length) :
    ∀ x ∈ ids, ∃ t ∈ tasks, t.id = x := by
  have hnodupR : ((tasks.filter (fun t => t.id ∈ ids)).map Task.id).Nodup :=
    ((List.filter_sublist tasks).map Task.id).nodup hnd_t
  have hsub : ((tasks.filter (fun t => t.id ∈ ids)).map Task.id) ⊆ ids := by
    intro x hx
    obtain ⟨t, ht, rfl⟩ := List.mem_map.mp hx
    simpa using (List.mem_filter.mp ht).2
  have hperm : List.Perm ((tasks.filter (fun t => t.id ∈ ids)).map Task.id) ids :=
    (List.subperm_of_subset hnodupR hsub).perm_of_length_le
      (le_of_eq (by rw [List.length_map, hlen]))
  intro x hx
  obtain ⟨t, ht, rfl⟩ := List.mem_map.mp (hperm.mem_iff.mpr hx)
  exact ⟨t, (List.mem_filter.mp ht).1, rfl⟩

theorem wfT_of_map_id_eq {s s' : Store}
    (h : s'.tasks.map Task.id = s.tasks.map Task.id) (hwf : s.wfT) : s'.wfT := by
  constructor
  · rw [h]
    exact hwf.1
  · intro t ht
    have hmem : t.id ∈ s'.tasks.map Task.id := List.mem_map_of_mem Task.id ht
    rw [h] at hmem
    obtain ⟨u, hu, he⟩ := List.mem_map.mp hmem
    exact he ▸ hwf.2 u hu

theorem deleteTask_preserves (id : String) (s : Store) (hwf : s.wfT)
    (hd : Store.dense s) :
    ((deleteTask id s).2).wfT ∧ Store.dense ((deleteTask id s).2) := by
  unfold deleteTask
  rcases hf : s.tasks.find? (fun t => t.id = id) with _ | task
  · rw [hf]
    exact ⟨hwf, hd⟩
  · rw [hf]
    simp only
    have htask_mem : task ∈ s.tasks := List.mem_of_find?_eq_some hf
    have htask_id : task.id = id := by simpa using List.find?_some hf
    set tasks1 := s.tasks.filter (fun t => t.id ≠ id) with htasks1
    have hsub1 : (tasks1.map Task.id).Sublist (s.tasks.map Task.id) :=
      (List.filter_sublist s.tasks).map Task.id
    have hnd1 : (tasks1.map Task.id).Nodup := hsub1.nodup hwf.1
    set srcIds := sortIdsBy leOrderUpdDescId
      (tasks1.filter (fun t => t.status = task.status)) with hsrc
    have hsrcPerm : List.Perm ((lane task.status tasks1).map Task.id) srcIds :=
      ((List.perm_insertionSort leOrderUpdDescId _).map Task.id).symm
    have hlanenodup : ((lane task.status tasks1).map Task.id).Nodup :=
      ((List.filter_sublist tasks1).map Task.id).nodup hnd1
    have hsrcNodup : srcIds.Nodup := hsrcPerm.nodup hlanenodup
    constructor
    · refine ⟨?_, ?_⟩
      · show ((touchMap srcIds (fun t i => { t with order := (i : Int) }) tasks1).map
          Task.id).Nodup
        rw [touchMap_map_id_order]
        exact hnd1
      · intro t ht
        rw [touchMap] at ht
        obtain ⟨u, hu, rfl⟩ := List.mem_map.mp ht
        have hu' : u ∈ s.tasks := (List.mem_filter.mp hu).1
        rcases hp : posOf srcIds u.id with _ | i <;> simp [hp, hwf.2 u hu']
    · intro st
      by_cases hst : st = task.status
      · subst hst
        exact denseLane_touchMap_orderOnly srcIds tasks1 task.status hsrcNodup hsrcPerm
      · have hdisj : ∀ t ∈ tasks1, t.status = st → t.id ∉ srcIds := by
          intro t ht hts hmem
          have hmem' : t.id ∈ (lane task.status tasks1).map Task.id :=
            hsrcPerm.mem_iff.mpr hmem
          obtain ⟨u, hu, he⟩ := List.mem_map.mp hmem'
          have hu1 : u ∈ tasks1 := (List.mem_filter.mp hu).1
          have hust : u.status = task.status := by simpa using (List.mem_filter.mp hu).2
          have htu : u = t := id_inj_of_nodup hnd1 hu1 ht he
          exact hst (hts ▸ htu ▸ hust)
        have heq1 : lane st (touchMap srcIds (fun t i => { t with order := (i : Int) })
            tasks1) = lane st tasks1 :=
          lane_touchMap_orderOnly_other srcIds tasks1 st hdisj
        have heq2 : lane st tasks1 = lane st s.tasks := by
          unfold lane
          rw [htasks1, List.filter_filter]
          apply List.filter_congr
          intro t ht
          by_cases hts : t.status = st
          · have htid : t.id ≠ id := by
              intro hc
              have hteq : t = task := id_inj_of_nodup hwf.1 ht htask_mem (hc.trans htask_id.symm)
              exact hst (by rw [← hts, hteq])
            simp [hts, htid]
          · simp [hts]
        show denseLane (lane st (touchMap srcIds (fun t i => { t with order := (i : Int) })
          tasks1))
        rw [heq1, heq2]
        exact hd st

theorem reorderTx_dense (input : ReorderInput) (orderedIds : List String)
    (ts : Nat) (tasks : List Task) (moved : Task)
    (hnd_t : (tasks.map Task.id).Nodup)
    (hnd_o : orderedIds.Nodup)
    (hmv_mem : moved ∈ tasks)
    (hmv_id : moved.id = input.movedTaskId)
    (hmoved_in : input.movedTaskId ∈ orderedIds)
    (hex : ∀ x ∈ orderedIds, ∃ t ∈ tasks, t.id = x)
    (hforeign : ∀ t ∈ tasks, t.id ∈ orderedIds → t.id ≠ input.movedTaskId →
      t.status = input.toStatus)
    (hd : ∀ st, denseLane (lane st tasks)) :
    ∀ st, denseLane (lane st (reorderTx input moved.status orderedIds ts tasks)) := by
  have hlen0 : orderedIds.length ≠ 0 :=
    fun h0 => (List.ne_nil_of_mem hmoved_in) (List.length_eq_zero.mp h0)
  unfold reorderTx
  simp only
  rw [if_pos hlen0]
  set T1 := tasks.map (fun t =>
    if t.id = input.movedTaskId then { t with status := input.toStatus, updatedAt := ts }
    else t) with hT1
  set R := sortIdsBy leOrderUpdDescId
    (T1.filter (fun t => t.status = input.toStatus ∧ t.id ∉ orderedIds)) with hR
  set F := orderedIds ++ R with hF
  set T2 := touchMap F (fun t i =>
    { t with status := input.toStatus, order := (i : Int), updatedAt := ts }) T1 with hT2
  have hT1id : T1.map Task.id = tasks.map Task.id := by
    rw [hT1, List.map_map]
    apply List.map_congr_left
    intro t _
    by_cases htid : t.id = input.movedTaskId <;> simp [htid]
  have hnd_T1 : (T1.map Task.id).Nodup := by
    rw [hT1id]
    exact hnd_t
  have hg1_moved : ∀ u ∈ tasks, u.id = input.movedTaskId → u = moved := by
    intro u hu he
    exact id_inj_of_nodup hnd_t hu hmv_mem (he.trans hmv_id.symm)
  have hRperm : List.Perm
      ((T1.filter (fun t => t.status = input.toStatus ∧ t.id ∉ orderedIds)).map Task.id) R :=
    ((List.perm_insertionSort leOrderUpdDescId _).map Task.id).symm
  have hRnodup : R.Nodup :=
    hRperm.nodup (((List.filter_sublist T1).map Task.id).nodup hnd_T1)
  have hRmem : ∀ x, x ∈ R ↔
      ∃ t ∈ T1, (t.status = input.toStatus ∧ t.id ∉ orderedIds) ∧ t.id = x := by
    intro x
    rw [← hRperm.mem_iff]
    constructor
    · intro hx
      obtain ⟨t, ht, rfl⟩ := List.mem_map.mp hx
      exact ⟨t, (List.mem_filter.mp ht).1,
        by simpa using (List.mem_filter.mp ht).2, rfl⟩
    · rintro ⟨t, ht, hp, rfl⟩
      exact List.mem_map_of_mem Task.id (List.mem_filter.mpr ⟨ht, by simpa using hp⟩)
  have hFnodup : F.Nodup := by
    rw [hF, List.nodup_append]
    refine ⟨hnd_o, hRnodup, ?_⟩
    intro x hxo hxR
    obtain ⟨t, ht, ⟨hp1, hp2⟩, he⟩ := (hRmem x).mp hxR
    exact hp2 (he ▸ hxo)
  have hcoverF : ∀ t ∈ T1, t.status = input.toStatus → t.id ∈ F := by
    intro t ht hts
    rw [hF, List.mem_append]
    by_cases hto : t.id ∈ orderedIds
    · exact Or.inl hto
    · exact Or.inr ((hRmem t.id).mpr ⟨t, ht, ⟨hts, hto⟩, rfl⟩)
  have hexF : ∀ x ∈ F, ∃ t ∈ T1, t.id = x := by
    intro x hx
    rw [hF, List.mem_append] at hx
    rcases hx with hx | hx
    · obtain ⟨u, hu, he⟩ := hex x hx
      refine ⟨(if u.id = input.movedTaskId
          then { u with status := input.toStatus, updatedAt := ts } else u), ?_, ?_⟩
      · rw [hT1]
        exact List.mem_map_of_mem _ hu
      · by_cases hb : u.id = input.movedTaskId
        · rw [if_pos hb]
          exact he
        · rw [if_neg hb]
          exact he
    · obtain ⟨t, ht, _, he⟩ := (hRmem x).mp hx
      exact ⟨t, ht, he⟩
  have hdest : denseLane (lane input.toStatus T2) := by
    rw [hT2]
    exact denseLane_touchMap_move F T1 input.toStatus ts hFnodup hnd_T1 hcoverF hexF
  have hother2 : ∀ st, st ≠ input.toStatus → lane st T2 = lane st T1 := by
    intro st hst
    rw [hT2]
    apply lane_touchMap_move_other F T1 st input.toStatus ts hst
    intro t ht hts hmemF
    rw [hF, List.mem_append] at hmemF
    rcases hmemF with hmo | hmr
    · rw [hT1] at ht
      obtain ⟨u, hu, rfl⟩ := List.mem_map.mp ht
      by_cases hb : u.id = input.movedTaskId
      · rw [if_pos hb] at hts
        exact hst hts.symm
      · rw [if_neg hb] at hts hmo
        have := hforeign u hu (by simpa using hmo) hb
        exact hst (by rw [← hts]; simpa using this)
    · obtain ⟨t', ht', ⟨hp1, _⟩, he⟩ := (hRmem t.id).mp hmr
      have heq : t' = t := id_inj_of_nodup hnd_T1 ht' ht he
      exact hst (by rw [← hts, ← heq, hp1])
  have hlaneT1 : ∀ st, st ≠ input.toStatus → st ≠ moved.status →
      lane st T1 = lane st tasks := by
    intro st h1 h2
    rw [hT1]
    unfold lane
    rw [List.filter_map]
    have hpred : ∀ u ∈ tasks,
        ((fun t => decide (t.status = st)) ∘ (fun t =>
          if t.id = input.movedTaskId
          then { t with status := input.toStatus, updatedAt := ts } else t)) u =
        decide (u.status = st) := by
      intro u hu
      by_cases hb : u.id = input.movedTaskId
      · have hum : u = moved := hg1_moved u hu hb
        have h1' : ¬(input.toStatus = st) := fun h => h1 h.symm
        have h2' : ¬(u.status = st) := fun h => h2 (by rw [← h, hum])
        simp [Function.comp, hb, h1', h2']
      · simp [Function.comp, hb]
    rw [List.filter_congr hpred]
    conv_rhs => rw [← List.map_id (tasks.filter (fun t => decide (t.status = st)))]
    apply List.map_congr_left
    intro u hu
    have hm := List.mem_filter.mp hu
    have hust : u.status = st := by simpa using hm.2
    have hb : u.id ≠ input.movedTaskId := by
      intro hc
      exact h2 (by rw [← hust, hg1_moved u hm.1 hc])
    simp [hb]
  intro st
  by_cases hcross : moved.status ≠ input.toStatus
  · rw [if_pos hcross]
    set srcIds := sortIdsBy leOrderUpdDescId
      (T2.filter (fun t => t.status = moved.status)) with hsrcIds
    have hnd_T2 : (T2.map Task.id).Nodup := by
      rw [hT2, touchMap_map_id_move, hT1id]
      exact hnd_t
    have hsrcPerm : List.Perm ((lane moved.status T2).map Task.id) srcIds :=
      ((List.perm_insertionSort leOrderUpdDescId _).map Task.id).symm
    have hsrcNodup : srcIds.Nodup :=
      hsrcPerm.nodup (((List.filter_sublist T2).map Task.id).nodup hnd_T2)
    have hdisj3 : ∀ st', st' ≠ moved.status → ∀ t ∈ T2, t.status = st' →
        t.id ∉ srcIds := by
      intro st' hne t ht hts hmem
      have hmem' := hsrcPerm.mem_iff.mpr hmem
      obtain ⟨u, hu, he⟩ := List.mem_map.mp hmem'
      have hu2 : u ∈ T2 := (List.mem_filter.mp hu).1
      have hust : u.status = moved.status := by simpa using (List.mem_filter.mp hu).2
      have heq : u = t := id_inj_of_nodup hnd_T2 hu2 ht he
      exact hne (by rw [← hts, ← heq, hust])
    by_cases hst1 : st = moved.status
    · subst hst1
      exact denseLane_touchMap_orderOnly srcIds T2 moved.status hsrcNodup hsrcPerm
    · have he3 : lane st (touchMap srcIds (fun t i => { t with order := (i : Int) }) T2) =
          lane st T2 :=
        lane_touchMap_orderOnly_other srcIds T2 st (hdisj3 st hst1)
      rw [he3]
      by_cases hst2 : st = input.toStatus
      · subst hst2
        exact hdest
      · rw [hother2 st hst2, hlaneT1 st hst2 hst1]
        exact hd st
  · rw [if_neg hcross]
    push_neg at hcross
    by_cases hst2 : st = input.toStatus
    · subst hst2
      exact hdest
    · rw [hother2 st hst2, hlaneT1 st hst2 (fun h => hst2 (h.trans hcross))]
      exact hd st

theorem reorderTasksInLane_preserves (input : ReorderInput) (s : Store) (hwf : s.wfT)
    (hd : Store.dense s) :
    ((reorderTasksInLane input s).2).wfT ∧ Store.dense ((reorderTasksInLane input s).2) := by
  refine ⟨wfT_of_map_id_eq (reorderTasksInLane_no_spawn input s).1 hwf, ?_⟩
  unfold reorderTasksInLane
  rcases hf : s.tasks.find? (fun t => t.id = input.movedTaskId) with _ | moved
  · rw [hf]
    exact hd
  · rw [hf]
    simp only
    split
    · exact hd
    · split
      · exact hd
      · split
        · exact hd
        · rename_i h1 h2 h3
          have hmoved_in : input.movedTaskId ∈
              dedupFirst (input.orderedTaskIds.filter (fun i => i ≠ "")) := not_not.mp h1
          have hlen0 : (dedupFirst (input.orderedTaskIds.filter (fun i => i ≠ ""))).length ≠ 0 :=
            fun h0 => (List.ne_nil_of_mem hmoved_in) (List.length_eq_zero.mp h0)
          have hlen : (s.tasks.filter (fun t => t.id ∈
              dedupFirst (input.orderedTaskIds.filter (fun i => i ≠ "")))).length =
              (dedupFirst (input.orderedTaskIds.filter (fun i => i ≠ ""))).length := by
            by_contra hc
            exact h2 ⟨hlen0, hc⟩
          have hany : ¬ ((s.tasks.filter (fun t => t.id ∈
              dedupFirst (input.orderedTaskIds.filter (fun i => i ≠ "")))).any
              (fun r => r.id ≠ input.movedTaskId ∧ r.status ≠ input.toStatus) = true) := by
            intro hc
            exact h3 ⟨hlen0, hc⟩
          intro st
          refine reorderTx_dense input _ s.now s.tasks moved hwf.1 (nodup_dedupFirst _)
            (List.mem_of_find?_eq_some hf) (by simpa using List.find?_some hf)
            hmoved_in ?_ ?_ hd st
          · exact exists_task_of_filter_length s.tasks _ hwf.1 hlen
          · intro t ht htin htne
            by_contra hts
            apply hany
            rw [List.any_eq_true]
            exact ⟨t, List.mem_filter.mpr ⟨ht, by simpa using htin⟩, by simp [htne, hts]⟩

theorem applyOp_preserves (s : Store) (op : StoreOp) (h : s.wfT ∧ Store.dense s) :
    (applyOp s op).wfT ∧ Store.dense (applyOp s op) := by
  cases op with
  | reorder input => exact reorderTasksInLane_preserves input s h.1 h.2
  | delete id => exact deleteTask_preserves id s h.1 h.2

theorem applyOps_preserves (ops : List StoreOp) : ∀ s : Store,
    s.wfT ∧ Store.dense s → (applyOps s ops).wfT ∧ Store.dense (applyOps s ops) := by
  induction ops with
  | nil => exact fun s h => h
  | cons op t ih => exact fun s h => ih _ (applyOp_preserves s op h)

/-- C1: starting from a store whose status lanes are all dense (with the
`tasks.id` primary key in force), any sequence of `reorderTasksInLane` and
`deleteTask` operations leaves every status lane dense: in a lane of size n
the multiset of `order` values is a permutation of {0, ..., n-1} — no
duplicates and no gaps. -/
theorem reorder_delete_sequences_preserve_density (s : Store) (ops : List StoreOp)
    (hwf : s.wfT) (hd : Store.dense s) :
    Store.dense (applyOps s ops) :=
  (applyOps_preserves ops s ⟨hwf, hd⟩).2

/-- C1 witness: a reorder into `done` followed by a delete keeps every lane
dense on a concrete two-task store. -/
theorem reorder_delete_sequences_preserve_density_witness :
    cexStoreSpawn.wfT ∧ Store.dense cexStoreSpawn ∧
    Store.dense (applyOps cexStoreSpawn
      [StoreOp.reorder
        { movedTaskId := "A", toStatus := TaskStatus.done, orderedTaskIds := ["A", "C"] },
        StoreOp.delete "C"]) := by
  have hwf : cexStoreSpawn.wfT := ⟨by decide, by decide⟩
  have hd : Store.dense cexStoreSpawn := by
    intro st
    unfold denseLane
    cases st <;> decide
  exact ⟨hwf, hd, reorder_delete_sequences_preserve_density cexStoreSpawn _ hwf hd⟩

/-! ## Project-ownership supporting lemmas -/

/-- Every task of `l'` takes its `projectId` from some task of `l` (the
task-side frame of task-table rewrites). -/
def pidsFrom (l' l : List Task) : Prop :=
  ∀ t' ∈ l', ∃ u ∈ l, t'.projectId = u.projectId

theorem pidsFrom_refl (l : List Task) : pidsFrom l l :=
  fun t ht => ⟨t, ht, rfl⟩

theorem pidsFrom_trans {l₁ l₂ l₃ : List Task} (h1 : pidsFrom l₁ l₂)
    (h2 : pidsFrom l₂ l₃) : pidsFrom l₁ l₃ := by
  intro t ht
  obtain ⟨u, hu, he⟩ := h1 t ht
  obtain ⟨v, hv, he'⟩ := h2 u hu
  exact ⟨v, hv, he.trans he'⟩

theorem pidsFrom_map {f : Task → Task} (hf : ∀ t, (f t).projectId = t.projectId)
    (l : List Task) : pidsFrom (l.map f) l := by
  intro t ht
  obtain ⟨u, hu, rfl⟩ := List.mem_map.mp ht
  exact ⟨u, hu, hf u⟩

theorem pidsFrom_touchMap (ids : List String) (upd : Task → Nat → Task)
    (hupd : ∀ t i, (upd t i).projectId = t.projectId) (l : List Task) :
    pidsFrom (touchMap ids upd l) l := by
  apply pidsFrom_map
  intro t
  rcases hp : posOf ids t.id with _ | i <;> simp [hp, hupd]

theorem pidsFrom_filter (p : Task → Bool) (l : List Task) :
    pidsFrom (l.filter p) l :=
  fun t ht => ⟨t, (List.mem_filter.mp ht).1, rfl⟩

theorem pidsFrom_normalizeTaskOrder (l : List Task) :
    pidsFrom (normalizeTaskOrder l) l := by
  unfold normalizeTaskOrder
  have hone : ∀ (acc : List Task) (st : TaskStatus), pidsFrom (normalizeLane st acc) acc := by
    intro acc st
    unfold normalizeLane
    apply pidsFrom_touchMap
    intro t i
    rfl
  have hfold : ∀ (sts : List TaskStatus) (acc : List Task),
      pidsFrom (sts.foldl (fun acc st => normalizeLane st acc) acc) acc := by
    intro sts
    induction sts with
    | nil => exact fun acc => pidsFrom_refl acc
    | cons st rest ih =>
      intro acc
      exact pidsFrom_trans (ih (normalizeLane st acc)) (hone acc st)
  exact hfold TASK_STATUSES l

theorem pidsFrom_reorderTx (input : ReorderInput) (movedStatus : TaskStatus)
    (orderedIds : List String) (ts : Nat) (tasks : List Task) :
    pidsFrom (reorderTx input movedStatus orderedIds ts tasks) tasks := by
  unfold reorderTx
  simp only
  have h1 : pidsFrom (tasks.map (fun t =>
      if t.id = input.movedTaskId then { t with status := input.toStatus, updatedAt := ts }
      else t)) tasks := by
    apply pidsFrom_map
    intro t
    by_cases hb : t.id = input.movedTaskId <;> simp [hb]
  split
  · apply pidsFrom_trans
    · apply pidsFrom_touchMap
      intro t i
      rfl
    · refine pidsFrom_trans ?_ h1
      apply pidsFrom_touchMap
      intro t i
      rfl
  · refine pidsFrom_trans ?_ h1
    apply pidsFrom_touchMap
    intro t i
    rfl

theorem projectExists_iff (pid : String) (s : Store) :
    projectExists pid s = true ↔ ∃ p ∈ s.projects, p.id = pid := by
  unfold projectExists
  rw [decide_eq_true_eq]
  constructor
  · intro h
    rcases he : s.projects.filter (fun p => p.id = pid) with _ | ⟨p, rest⟩
    · exact absurd he h
    · have hp : p ∈ s.projects.filter (fun p => p.id = pid) := by rw [he]; exact List.mem_cons_self _ _
      exact ⟨p, (List.mem_filter.mp hp).1, by simpa using (List.mem_filter.mp hp).2⟩
  · rintro ⟨p, hp, he⟩ hnil
    have : p ∈ s.projects.filter (fun p => p.id = pid) :=
      List.mem_filter.mpr ⟨hp, by simpa using he⟩
    rw [hnil] at this
    exact List.not_mem_nil p this

theorem ensureInbox_facts (s : Store) :
    (ensureInboxProject s).1 = INBOX_PROJECT_ID ∧
    (ensureInboxProject s).2.tasks = s.tasks ∧
    (∀ p ∈ s.projects, p ∈ (ensureInboxProject s).2.projects) ∧
    (∃ p ∈ (ensureInboxProject s).2.projects, p.id = INBOX_PROJECT_ID) := by
  unfold ensureInboxProject
  by_cases h : projectExists INBOX_PROJECT_ID s = true
  · rw [if_pos h]
    exact ⟨rfl, rfl, fun p hp => hp, (projectExists_iff _ s).mp h⟩
  · rw [if_neg h]
    refine ⟨rfl, rfl, fun p hp => List.mem_append_left _ hp, ?_⟩
    exact ⟨_, List.mem_append_right _ (List.mem_cons_self _ _), rfl⟩

theorem createTask_ownership (input : CreateTaskInput) (s : Store)
    (h : s.ownershipOk) : ((createTask input s).2).ownershipOk := by
  obtain ⟨hfst, htasks, hsup, hinb⟩ := ensureInbox_facts s
  unfold createTask
  simp only
  by_cases hex : projectExists (input.projectId.getD INBOX_PROJECT_ID) s = true
  · rw [if_pos hex]
    refine ⟨h.1, ?_⟩
    intro t ht
    rcases List.mem_append.mp ht with ht | ht
    · exact h.2 t ht
    · rw [List.mem_singleton.mp ht]
      exact (projectExists_iff _ s).mp hex
  · rw [if_neg hex]
    refine ⟨hinb, ?_⟩
    intro t ht
    rcases List.mem_append.mp ht with ht | ht
    · rw [htasks] at ht
      obtain ⟨p, hp, he⟩ := h.2 t ht
      exact ⟨p, hsup p hp, he⟩
    · rw [List.mem_singleton.mp ht]
      show ∃ p ∈ (ensureInboxProject s).2.projects, p.id = (ensureInboxProject s).1
      rw [hfst]
      exact hinb

theorem createProject_ownership (input : CreateProjectInput) (s : Store)
    (h : s.ownershipOk) : ((createProject input s).2).ownershipOk := by
  unfold createProject
  simp only
  constructor
  · obtain ⟨p, hp, he⟩ := h.1
    exact ⟨p, List.mem_append_left _ hp, he⟩
  · intro t ht
    obtain ⟨p, hp, he⟩ := h.2 t ht
    exact ⟨p, List.mem_append_left _ hp, he⟩

theorem updateProject_ownership (id : String) (patch : ProjectPatch) (s : Store)
    (h : s.ownershipOk) : ((updateProject id patch s).2).ownershipOk := by
  unfold updateProject
  rcases hf : s.projects.find? (fun p => p.id = id) with _ | current
  · rw [hf]
    exact h
  · rw [hf]
    simp only
    have hcur : current.id = id := by simpa using List.find?_some hf
    have hidmap : ∀ pid, (∃ p ∈ s.projects, p.id = pid) →
        ∃ p' ∈ s.projects.map (fun p => if p.id = id then
          { current with
            title := match patch.title with | some v => jsTrim v | Option.none => current.title
            description := patch.description.getD current.description
            status := patch.status.getD current.status
            dueDate := patch.dueDate.getD current.dueDate
            completionPercent := match patch.completionPercent with
              | some v => max 0 (min 100 v)
              | Option.none => current.completionPercent
            updatedAt := s.now } else p), p'.id = pid := by
      rintro pid ⟨p, hp, he⟩
      by_cases hb : p.id = id
      · refine ⟨_, List.mem_map_of_mem _ hp, ?_⟩
        rw [if_pos hb]
        show current.id = pid
        rw [hcur, ← hb, he]
      · refine ⟨_, List.mem_map_of_mem _ hp, ?_⟩
        rw [if_neg hb]
        exact he
    exact ⟨hidmap _ h.1, fun t ht => hidmap _ (h.2 t ht)⟩

theorem deleteProject_ownership (id : String) (s : Store)
    (h : s.ownershipOk) : ((deleteProject id s).2).ownershipOk := by
  unfold deleteProject
  by_cases hid : id = INBOX_PROJECT_ID
  · rw [if_pos hid]
    exact h
  · rw [if_neg hid]
    rcases hf : s.projects.find? (fun p => p.id = id) with _ | cur
    · rw [hf]
      exact h
    · rw [hf]
      simp only
      obtain ⟨hfst, htasks, hsup, hinb⟩ := ensureInbox_facts s
      have hinb' : ∃ p ∈ (ensureInboxProject s).2.projects.filter (fun p => p.id ≠ id),
          p.id = INBOX_PROJECT_ID := by
        obtain ⟨p, hp, he⟩ := hinb
        refine ⟨p, List.mem_filter.mpr ⟨hp, ?_⟩, he⟩
        rw [decide_eq_true_eq, he]
        exact fun hc => hid hc.symm
      refine ⟨hinb', ?_⟩
      intro t ht
      obtain ⟨u, hu, rfl⟩ := List.mem_map.mp ht
      by_cases hb : u.projectId = id
      · rw [if_pos hb]
        exact hinb'
      · rw [if_neg hb]
        rw [htasks] at hu
        obtain ⟨p, hp, he⟩ := h.2 u hu
        refine ⟨p, List.mem_filter.mpr ⟨hsup p hp, ?_⟩, he⟩
        rw [decide_eq_true_eq, he]
        exact hb

theorem deleteTask_ownership (id : String) (s : Store)
    (h : s.ownershipOk) : ((deleteTask id s).2).ownershipOk := by
  unfold deleteTask
  rcases hf : s.tasks.find? (fun t => t.id = id) with _ | task
  · rw [hf]
    exact h
  · rw [hf]
    simp only
    refine ⟨h.1, ?_⟩
    intro t ht
    have hstep : pidsFrom (touchMap
        (sortIdsBy leOrderUpdDescId
          ((s.tasks.filter (fun t => t.id ≠ id)).filter (fun t => t.status = task.status)))
        (fun t i => { t with order := (i : Int) })
        (s.tasks.filter (fun t => t.id ≠ id))) (s.tasks.filter (fun t => t.id ≠ id)) := by
      apply pidsFrom_touchMap
      intro t i
      rfl
    obtain ⟨u, hu, he⟩ := (pidsFrom_trans hstep (pidsFrom_filter _ s.tasks)) t ht
    obtain ⟨p, hp, he'⟩ := h.2 u hu
    exact ⟨p, hp, he'.trans he.symm⟩

theorem reorderTasksInLane_ownership (input : ReorderInput) (s : Store)
    (h : s.ownershipOk) : ((reorderTasksInLane input s).2).ownershipOk := by
  unfold reorderTasksInLane
  rcases hf : s.tasks.find? (fun t => t.id = input.movedTaskId) with _ | moved
  · rw [hf]
    exact h
  · rw [hf]
    simp only
    split
    · exact h
    · split
      · exact h
      · split
        · exact h
        · refine ⟨h.1, ?_⟩
          intro t ht
          obtain ⟨u, hu, he⟩ := pidsFrom_reorderTx input moved.status _ s.now s.tasks t ht
          obtain ⟨p, hp, he'⟩ := h.2 u hu
          exact ⟨p, hp, he'.trans he.symm⟩

theorem ownershipOk_bump {s' : Store} (n : Nat) (h : s'.ownershipOk) :
    Store.ownershipOk { s' with now := n } :=
  h

theorem updateTask_ownership_core (s : Store) (h : s.ownershipOk)
    (prFst : String) (prSnd : Store)
    (hA : ∃ p ∈ prSnd.projects, p.id = prFst)
    (hS : ∀ p ∈ s.projects, p ∈ prSnd.projects)
    (tasksFinal tasksUpd : List Task)
    (hfinal : pidsFrom tasksFinal tasksUpd)
    (hupd : ∀ t ∈ tasksUpd, (∃ u ∈ s.tasks, t.projectId = u.projectId) ∨
      t.projectId = prFst) :
    Store.ownershipOk { prSnd with tasks := tasksFinal } := by
  constructor
  · obtain ⟨p, hp, he⟩ := h.1
    exact ⟨p, hS p hp, he⟩
  · intro t ht
    obtain ⟨u, hu, he⟩ := hfinal t ht
    rcases hupd u hu with ⟨v, hv, he'⟩ | he'
    · obtain ⟨p, hp, hpe⟩ := h.2 v hv
      exact ⟨p, hS p hp, hpe.trans (he'.symm.trans he.symm)⟩
    · obtain ⟨p, hp, hpe⟩ := hA
      exact ⟨p, hp, hpe.trans (he'.symm.trans he.symm)⟩

theorem updateTask_ownership (id : String) (patch : TaskPatch) (s : Store)
    (h : s.ownershipOk) : ((updateTask id patch s).2).ownershipOk := by
  unfold updateTask
  rcases hf : s.tasks.find? (fun t => t.id = id) with _ | current
  · rw [hf]
    exact h
  · rw [hf]
    simp only
    split
    · exact h
    · rename_i hpnull
      have hcur_mem : current ∈ s.tasks := List.mem_of_find?_eq_some hf
      rcases hpp : patch.projectId with _ | op
      · simp only
        split
        all_goals
          first
            | apply ownershipOk_bump
              apply createTask_ownership
              apply updateTask_ownership_core s h current.projectId s
                (h.2 current hcur_mem) (fun p hp => hp)
            | apply ownershipOk_bump
              apply updateTask_ownership_core s h current.projectId s
                (h.2 current hcur_mem) (fun p hp => hp)
        all_goals
          first
            | (split
               · exact pidsFrom_normalizeTaskOrder _
               · exact pidsFrom_refl _)
            | (intro t ht
               obtain ⟨v, hv, rfl⟩ := List.mem_map.mp ht
               by_cases hb : v.id = id
               · rw [if_pos hb]
                 exact Or.inr rfl
               · rw [if_neg hb]
                 exact Or.inl ⟨v, hv, rfl⟩)
      · rcases op with _ | pid
        · exact absurd hpp hpnull
        · simp only
          by_cases hex : projectExists pid s = true
          · rw [if_pos hex]
            split
            all_goals
              first
                | apply ownershipOk_bump
                  apply createTask_ownership
                  apply updateTask_ownership_core s h pid s
                    ((projectExists_iff pid s).mp hex) (fun p hp => hp)
                | apply ownershipOk_bump
                  apply updateTask_ownership_core s h pid s
                    ((projectExists_iff pid s).mp hex) (fun p hp => hp)
            all_goals
              first
                | (split
                   · exact pidsFrom_normalizeTaskOrder _
                   · exact pidsFrom_refl _)
                | (intro t ht
                   obtain ⟨v, hv, rfl⟩ := List.mem_map.mp ht
                   by_cases hb : v.id = id
                   · rw [if_pos hb]
                     exact Or.inr rfl
                   · rw [if_neg hb]
                     exact Or.inl ⟨v, hv, rfl⟩)
          · rw [if_neg hex]
            obtain ⟨hfst, htasks, hsup, hinb⟩ := ensureInbox_facts s
            have hA : ∃ p ∈ (ensureInboxProject s).2.projects,
                p.id = (ensureInboxProject s).1 := by
              rw [hfst]
              exact hinb
            split
            all_goals
              first
                | apply ownershipOk_bump
                  apply createTask_ownership
                  apply updateTask_ownership_core s h (ensureInboxProject s).1
                    (ensureInboxProject s).2 hA hsup
                | apply ownershipOk_bump
                  apply updateTask_ownership_core s h (ensureInboxProject s).1
                    (ensureInboxProject s).2 hA hsup
            all_goals
              first
                | (split
                   · exact pidsFrom_normalizeTaskOrder _
                   · exact pidsFrom_refl _)
                | (intro t ht
                   obtain ⟨v, hv, rfl⟩ := List.mem_map.mp ht
                   rw [htasks] at hv
                   by_cases hb : v.id = id
                   · rw [if_pos hb]
                     exact Or.inr rfl
                   · rw [if_neg hb]
                     exact Or.inl ⟨v, hv, rfl⟩)

/-- C9: all store operations preserve referential integrity of task
ownership — the Inbox project exists and every task's `projectId` references
an existing project: deleting a project reassigns its tasks to the Inbox
instead of orphaning them, the Inbox itself can never be deleted
(`deleteProject` refuses it and leaves the store untouched), and
`createTask`/`updateTask` replace a supplied `projectId` that does not exist
with the ensured Inbox id. -/
theorem ownership_invariant_preserved (s : Store) (h : s.ownershipOk)
    (pi : CreateProjectInput) (pid : String) (ppatch : ProjectPatch) (dpid : String)
    (ti : CreateTaskInput) (tid : String) (tpatch : TaskPatch) (dtid : String)
    (rin : ReorderInput) :
    ((createProject pi s).2).ownershipOk ∧
    ((updateProject pid ppatch s).2).ownershipOk ∧
    ((deleteProject dpid s).2).ownershipOk ∧
    ((createTask ti s).2).ownershipOk ∧
    ((updateTask tid tpatch s).2).ownershipOk ∧
    ((deleteTask dtid s).2).ownershipOk ∧
    ((reorderTasksInLane rin s).2).ownershipOk ∧
    deleteProject INBOX_PROJECT_ID s = (false, s) :=
  ⟨createProject_ownership pi s h, updateProject_ownership pid ppatch s h,
   deleteProject_ownership dpid s h, createTask_ownership ti s h,
   updateTask_ownership tid tpatch s h, deleteTask_ownership dtid s h,
   reorderTasksInLane_ownership rin s h, by unfold deleteProject; rw [if_pos rfl]⟩

/-- The sample store for the ownership-invariant witness: the Inbox project,
a second project, and one task owned by the second project. -/
def ownStore : Store where
  projects := [
    { id := "proj-inbox", title := "Inbox", description := Option.none,
      status := ProjectStatus.active, dueDate := Option.none, completionPercent := 0,
      source := SourceType.mission_control, createdAt := 0, updatedAt := 0 },
    { id := "proj-x", title := "X", description := Option.none,
      status := ProjectStatus.active, dueDate := Option.none, completionPercent := 0,
      source := SourceType.mission_control, createdAt := 0, updatedAt := 0 }]
  tasks := [
    { id := "T1", title := "one", details := Option.none, status := TaskStatus.todo,
      priority := Priority.medium, dueDate := Option.none, scheduledAt := Option.none,
      completedAt := Option.none, projectId := "proj-x",
      source := SourceType.mission_control, order := 0, recurrence := Recurrence.none,
      createdAt := 0, updatedAt := 0 }]
  now := 7
  nextId := 0

/-- C9 witness: the invariant holds on `ownStore` and is preserved by one
concrete instance of every operation (including deleting the owning project
"proj-x" and asking to delete the Inbox, which is refused). -/
theorem ownership_invariant_preserved_witness :
    ownStore.ownershipOk ∧
    (((createProject { title := "p" } ownStore).2).ownershipOk ∧
    ((updateProject "proj-x" { title := some "y" } ownStore).2).ownershipOk ∧
    ((deleteProject "proj-x" ownStore).2).ownershipOk ∧
    ((createTask { title := "t", projectId := some "nope" } ownStore).2).ownershipOk ∧
    ((updateTask "T1" { projectId := some (some "nope") } ownStore).2).ownershipOk ∧
    ((deleteTask "T1" ownStore).2).ownershipOk ∧
    ((reorderTasksInLane
      { movedTaskId := "T1", toStatus := TaskStatus.done, orderedTaskIds := ["T1"] }
      ownStore).2).ownershipOk ∧
    deleteProject INBOX_PROJECT_ID ownStore = (false, ownStore)) := by
  have h : ownStore.ownershipOk := ⟨by decide, by decide⟩
  exact ⟨h, ownership_invariant_preserved ownStore h _ _ _ _ _ _ _ _ _⟩


/-- Every row of a `normalizeLane` pass differs from a table row only in its
order index: id and status are untouched. -/
theorem mem_normalizeLane_shape (st : TaskStatus) (l : List Task) (u : Task)
    (hu : u ∈ normalizeLane st l) : ∃ v ∈ l, u.id = v.id ∧ u.status = v.status := by
  unfold normalizeLane touchMap at hu
  obtain ⟨v, hv, he⟩ := List.mem_map.mp hu
  refine ⟨v, hv, ?_⟩
  rcases hp : posOf (sortIdsBy leOrderCreUpdId (l.filter (fun t => t.status = st))) v.id
      with _ | i <;> simp only [hp] at he <;> subst he <;> exact ⟨rfl, rfl⟩

/-- `normalizeTaskOrder` only rewrites order indices: every result row keeps
the id and status of a source row. -/
theorem mem_normalizeTaskOrder_shape (l : List Task) (u : Task)
    (hu : u ∈ normalizeTaskOrder l) : ∃ v ∈ l, u.id = v.id ∧ u.status = v.status := by
  unfold normalizeTaskOrder at hu
  have hfold : ∀ (sts : List TaskStatus) (acc : List Task) (u : Task),
      u ∈ sts.foldl (fun acc st => normalizeLane st acc) acc →
      ∃ v ∈ acc, u.id = v.id ∧ u.status = v.status := by
    intro sts
    induction sts with
    | nil => exact fun acc u hu => ⟨u, hu, rfl, rfl⟩
    | cons st rest ih =>
      intro acc u hu
      obtain ⟨v, hv, hid, hst⟩ := ih (normalizeLane st acc) u hu
      obtain ⟨w, hw, hid2, hst2⟩ := mem_normalizeLane_shape st acc v hv
      exact ⟨w, hw, hid.trans hid2, hst.trans hst2⟩
  exact hfold TASK_STATUSES l u hu

/-- A `normalizeLane` pass preserves the rows' ids. -/
theorem normalizeLane_map_id (st : TaskStatus) (l : List Task) :
    (normalizeLane st l).map Task.id = l.map Task.id := by
  unfold normalizeLane
  exact touchMap_map_id_order _ _

/-- `normalizeTaskOrder` preserves the rows' ids. -/
theorem normalizeTaskOrder_map_id (l : List Task) :
    (normalizeTaskOrder l).map Task.id = l.map Task.id := by
  unfold normalizeTaskOrder
  have hfold : ∀ (sts : List TaskStatus) (acc : List Task),
      (sts.foldl (fun acc st => normalizeLane st acc) acc).map Task.id = acc.map Task.id := by
    intro sts
    induction sts with
    | nil => exact fun acc => rfl
    | cons st rest ih =>
      intro acc
      rw [List.foldl_cons, ih (normalizeLane st acc), normalizeLane_map_id]
  exact hfold TASK_STATUSES l

/-- The `{ status: "done" }` patch that marks a task complete. -/
def donePatch : TaskPatch := { status := some TaskStatus.done }

/-- The head of a `dropWhile` result never satisfies the predicate. -/
theorem dropWhile_head_false (p : Char → Bool) (l : List Char) :
    ∀ c, (l.dropWhile p).head? = some c → p c = false := by
  induction l with
  | nil => intro c h; cases h
  | cons a t ih =>
    intro c h
    rw [List.dropWhile_cons] at h
    by_cases hpa : p a = true
    · rw [if_pos hpa] at h
      exact ih c h
    · rw [if_neg hpa] at h
      have hac : a = c := by simpa using h
      rw [← hac]
      exact Bool.not_eq_true _ ▸ hpa

/-- `dropWhile` is the identity when the head (if any) fails the predicate. -/
theorem dropWhile_eq_self (p : Char → Bool) (l : List Char)
    (h : ∀ c, l.head? = some c → p c = false) : l.dropWhile p = l := by
  cases l with
  | nil => rfl
  | cons a t =>
    rw [List.dropWhile_cons, h a rfl]
    simp

/-- A nonempty `dropWhile` result keeps the last element of the list. -/
theorem dropWhile_getLast (p : Char → Bool) (l : List Char)
    (h : l.dropWhile p ≠ []) : (l.dropWhile p).getLast? = l.getLast? := by
  induction l with
  | nil => exact absurd rfl h
  | cons a t ih =>
    rw [List.dropWhile_cons] at h ⊢
    by_cases hpa : p a = true
    · rw [if_pos hpa] at h ⊢
      have htne : t ≠ [] := by
        intro he
        rw [he] at h
        exact h rfl
      rcases t with _ | ⟨b, t2⟩
      · exact absurd rfl htne
      · rw [ih h, List.getLast?_cons_cons]
    · rw [if_neg hpa]

/-- Trimming is idempotent on char lists. -/
theorem jsTrimList_idem (l : List Char) : jsTrimList (jsTrimList l) = jsTrimList l := by
  unfold jsTrimList
  by_cases hCe : (l.dropWhile isJsSpace).reverse.dropWhile isJsSpace = []
  · rw [hCe]
    simp
  · have h1 : ((l.dropWhile isJsSpace).reverse.dropWhile isJsSpace).reverse.dropWhile
        isJsSpace = ((l.dropWhile isJsSpace).reverse.dropWhile isJsSpace).reverse := by
      apply dropWhile_eq_self
      intro c hc
      rw [List.head?_reverse] at hc
      rw [dropWhile_getLast _ _ hCe] at hc
      rw [List.getLast?_reverse] at hc
      exact dropWhile_head_false _ _ c hc
    rw [h1, List.reverse_reverse]
    rw [dropWhile_eq_self _ _ (dropWhile_head_false _ _)]

/-- `String.prototype.trim` is idempotent. -/
theorem jsTrim_idem (x : String) : jsTrim (jsTrim x) = jsTrim x := by
  unfold jsTrim
  rw [show (String.mk (jsTrimList x.data)).data = jsTrimList x.data from rfl, jsTrimList_idem]

/-- The details normalization `createTask` applies to its input
(`input.details?.trim() || null`): trim, and turn empty or whitespace-only
details into `null`. -/
def trimDetails (d : Option String) : Option String :=
  match d with
  | some v => if jsTrim v = "" then Option.none else some (jsTrim v)
  | Option.none => Option.none

/-- What `createTask` inserts when the requested project exists: the new row
is appended to the table, and its fields are the trimmed/defaulted input
fields, the details normalized by `trimDetails`. -/
theorem createTask_exists_spec (input : CreateTaskInput) (s : Store) (pid : String)
    (hpid : input.projectId = some pid) (hpe : projectExists pid s = true) :
    ((createTask input s).2).tasks = s.tasks ++ [(createTask input s).1] ∧
    ((createTask input s).1).id = createId "task" s.nextId ∧
    ((createTask input s).1).title = jsTrim input.title ∧
    ((createTask input s).1).status = input.status.getD TaskStatus.todo ∧
    ((createTask input s).1).priority = input.priority.getD Priority.medium ∧
    ((createTask input s).1).dueDate = input.dueDate ∧
    ((createTask input s).1).scheduledAt = input.scheduledAt ∧
    ((createTask input s).1).projectId = pid ∧
    ((createTask input s).1).source = input.source.getD SourceType.mission_control ∧
    ((createTask input s).1).recurrence = input.recurrence.getD Recurrence.none ∧
    ((createTask input s).1).details = trimDetails input.details := by
  unfold createTask
  cases hd : input.details <;> simp [hpid, hpe, trimDetails, hd]

/-- The `createTask` input the Recurrence Spawner passes for a completed
task `t` (lines 840–850 of `store.ts`). -/
def spawnInput (t : Task) : CreateTaskInput where
  title := t.title
  details := t.details
  status := some TaskStatus.todo
  priority := some t.priority
  dueDate := addRecurrenceDate t.dueDate t.recurrence
  scheduledAt := addRecurrenceDate t.scheduledAt t.recurrence
  projectId := some t.projectId
  source := some t.source
  recurrence := some t.recurrence

/-- `ensureInboxProject` touches neither the clock nor the id counter. -/
theorem ensureInbox_clock (s : Store) :
    ((ensureInboxProject s).2).now = s.now ∧ ((ensureInboxProject s).2).nextId = s.nextId := by
  unfold ensureInboxProject
  split <;> exact ⟨rfl, rfl⟩

/-- `normalizeTaskOrder` preserves the number of rows. -/
theorem normalizeTaskOrder_length (l : List Task) :
    (normalizeTaskOrder l).length = l.length := by
  have h := congrArg List.length (normalizeTaskOrder_map_id l)
  simpa using h

/-- Reduction of `updateTask` on a non-done task when the patch sets status
"done" and the merged recurrence is not "none": the call returns the merged
row, merges it into the table, renumbers every lane, and hands the result to
the Recurrence Spawner's `createTask`. -/
theorem updateTask_crossing_red (id : String) (patch : TaskPatch) (s : Store) (t : Task)
    (hf : s.tasks.find? (fun u => u.id = id) = some t)
    (hpn : patch.projectId ≠ some Option.none)
    (hst : patch.status = some TaskStatus.done)
    (hnd : t.status ≠ TaskStatus.done)
    (hrecM : patch.recurrence.getD t.recurrence ≠ Recurrence.none)
    (htrim : jsTrim t.title = t.title)
    (hproj : ∃ p ∈ s.projects, p.id = t.projectId) :
    ∃ (item : Task) (s1 : Store),
      (updateTask id patch s).1 = some item ∧
      ((updateTask id patch s).2).tasks =
        ((createTask (spawnInput item)
          { s1 with tasks := normalizeTaskOrder (s.tasks.map (fun u =>
              if u.id = id then item else u)) }).2).tasks ∧
      s1.tasks = s.tasks ∧ s1.now = s.now ∧ s1.nextId = s.nextId ∧
      (∃ p ∈ s1.projects, p.id = item.projectId) ∧
      item.id = t.id ∧
      item.status = TaskStatus.done ∧
      jsTrim item.title = item.title ∧
      item.details = patch.details.getD t.details ∧
      item.priority = patch.priority.getD t.priority ∧
      item.dueDate = patch.dueDate.getD t.dueDate ∧
      item.scheduledAt = patch.scheduledAt.getD t.scheduledAt ∧
      item.source = t.source ∧
      item.recurrence = patch.recurrence.getD t.recurrence := by
  have hne : ¬ (TaskStatus.done = t.status) := fun he => hnd he.symm
  unfold updateTask
  rw [hf]
  rcases hpp : patch.projectId with _ | opid
  · simp [hpp, hst, hnd, hne, hrecM]
    refine ⟨s, ?_, rfl, rfl, rfl, hproj, ?_⟩
    · rfl
    · rcases patch.title with _ | v <;> simp [htrim, jsTrim_idem]
  · rcases opid with _ | pid
    · exact absurd hpp hpn
    · by_cases hpe : projectExists pid s = true
      · simp [hpp, hst, hnd, hne, hrecM, hpe]
        refine ⟨s, ?_, rfl, rfl, rfl, (projectExists_iff _ _).mp hpe, ?_⟩
        · rfl
        · rcases patch.title with _ | v <;> simp [htrim, jsTrim_idem]
      · simp [hpp, hst, hnd, hne, hrecM, hpe]
        obtain ⟨hfst, htasks, hsup, hinb⟩ := ensureInbox_facts s
        obtain ⟨hnow, hnid⟩ := ensureInbox_clock s
        refine ⟨(ensureInboxProject s).2, ?_, htasks, hnow, hnid, ?_, ?_⟩
        · rw [htasks]
          rfl
        · rw [hfst]
          exact hinb
        · rcases patch.title with _ | v <;> simp [htrim, jsTrim_idem]

/-- Once every row carrying an id has status "done", no `updateTask` call on
that id changes the number of tasks, whatever the patch: the done → done
"crossing" never happens, so the Recurrence Spawner stays silent. -/
theorem updateTask_from_done_len (id : String) (patch2 : TaskPatch) (s : Store)
    (h : ∀ u ∈ s.tasks, u.id = id → u.status = TaskStatus.done) :
    ((updateTask id patch2 s).2).tasks.length = s.tasks.length := by
  unfold updateTask
  rcases hfind : s.tasks.find? (fun t => t.id = id) with _ | u
  · rw [hfind]
  · rw [hfind]
    have hid' : u.id = id := by simpa using List.find?_some hfind
    have hu : u.status = TaskStatus.done := h u (List.mem_of_find?_eq_some hfind) hid'
    rcases hpp : patch2.projectId with _ | opid
    · simp [hpp, hu, normalizeTaskOrder_length]
      split <;> simp [normalizeTaskOrder_length]
    · rcases opid with _ | pid
      · simp [hpp]
      · by_cases hpe : projectExists pid s = true
        · simp [hpp, hu, hpe, normalizeTaskOrder_length]
          split <;> simp [normalizeTaskOrder_length]
        · simp [hpp, hu, hpe, normalizeTaskOrder_length, (ensureInbox_facts s).2.1]
          split <;> simp [normalizeTaskOrder_length, (ensureInbox_facts s).2.1]

/-- C4, corrected: every `updateTask` whose patch sets status "done" on a
task not yet "done", with a resulting recurrence other than "none", creates
exactly one new task: the table keeps every existing row's id and gains one
appended row, which sits in the "todo" lane, copies the completed row's
title, priority, project, source and recurrence, and carries
`addRecurrenceDate` of the completed row's due and scheduled dates - due
date D becomes D + 86400000 ms (one day) for daily recurrence and
D + 604800000 ms (seven days) for weekly, while a null due or scheduled date
stays null. The details are NOT copied verbatim: the spawn goes through
`createTask`, which trims them and turns empty or whitespace-only details
into null (`trimDetails`), while `updateTask` stores patch details
untrimmed, so a reachable row with details " note " spawns a successor with
details "note". Any second `updateTask` on the id while every row carrying
it is "done" changes no task count. (Hypotheses `htrim`, `hproj` and
`hfresh` encode store invariants: titles are stored trimmed, the task's
project exists, and the freshly generated id is new.) -/
theorem updateTask_done_crossing_spawn (id : String) (patch : TaskPatch) (s : Store) (t : Task)
    (hf : s.tasks.find? (fun u => u.id = id) = some t)
    (hpn : patch.projectId ≠ some Option.none)
    (hst : patch.status = some TaskStatus.done)
    (hnd : t.status ≠ TaskStatus.done)
    (hrecM : patch.recurrence.getD t.recurrence ≠ Recurrence.none)
    (htrim : jsTrim t.title = t.title)
    (hproj : ∃ p ∈ s.projects, p.id = t.projectId)
    (hfresh : createId "task" s.nextId ≠ id) :
    ∃ item nt : Task,
      (updateTask id patch s).1 = some item ∧
      item.status = TaskStatus.done ∧
      item.details = patch.details.getD t.details ∧
      item.dueDate = patch.dueDate.getD t.dueDate ∧
      item.scheduledAt = patch.scheduledAt.getD t.scheduledAt ∧
      item.recurrence = patch.recurrence.getD t.recurrence ∧
      ((updateTask id patch s).2).tasks.map Task.id = s.tasks.map Task.id ++ [nt.id] ∧
      ((updateTask id patch s).2).tasks.length = s.tasks.length + 1 ∧
      ((updateTask id patch s).2).tasks.getLast? = some nt ∧
      nt.status = TaskStatus.todo ∧
      nt.title = item.title ∧
      nt.details = trimDetails item.details ∧
      nt.priority = item.priority ∧
      nt.projectId = item.projectId ∧
      nt.source = item.source ∧
      nt.recurrence = item.recurrence ∧
      nt.dueDate = addRecurrenceDate item.dueDate item.recurrence ∧
      nt.scheduledAt = addRecurrenceDate item.scheduledAt item.recurrence ∧
      (∀ D : Int, item.dueDate = some (DateVal.valid D) → item.recurrence = Recurrence.daily →
        nt.dueDate = some (DateVal.valid (D + 86400000))) ∧
      (∀ D : Int, item.dueDate = some (DateVal.valid D) → item.recurrence = Recurrence.weekly →
        nt.dueDate = some (DateVal.valid (D + 604800000))) ∧
      (item.dueDate = Option.none → nt.dueDate = Option.none) ∧
      (item.scheduledAt = Option.none → nt.scheduledAt = Option.none) ∧
      (∀ patch2 : TaskPatch,
        ((updateTask id patch2 ((updateTask id patch s).2)).2).tasks.length =
          ((updateTask id patch s).2).tasks.length) := by
  have htid : t.id = id := by simpa using List.find?_some hf
  obtain ⟨item, s1, hret, hredT, hs1t, hs1n, hs1i, hs1p, hiid, hist, hittrim, hidet, hiprio,
    hidue, hisch, hisrc, hirec⟩ :=
    updateTask_crossing_red id patch s t hf hpn hst hnd hrecM htrim hproj
  have hpe : projectExists item.projectId
      { s1 with tasks := normalizeTaskOrder (s.tasks.map (fun u =>
          if u.id = id then item else u)) } = true :=
    (projectExists_iff _ _).mpr hs1p
  obtain ⟨htab, hid, htitle, hstat, hprio, hdue, hsch, hpid2, hsrc, hrec2, hdet2⟩ :=
    createTask_exists_spec (spawnInput item)
      { s1 with tasks := normalizeTaskOrder (s.tasks.map (fun u =>
          if u.id = id then item else u)) } item.projectId rfl hpe
  refine ⟨item, (createTask (spawnInput item)
      { s1 with tasks := normalizeTaskOrder (s.tasks.map (fun u =>
          if u.id = id then item else u)) }).1,
    hret, hist, hidet, hidue, hisch, hirec, ?_⟩
  set nt := (createTask (spawnInput item)
      { s1 with tasks := normalizeTaskOrder (s.tasks.map (fun u =>
          if u.id = id then item else u)) }).1 with hntdef
  have heq : ((updateTask id patch s).2).tasks =
      normalizeTaskOrder (s.tasks.map (fun u => if u.id = id then item else u)) ++ [nt] :=
    hredT.trans htab
  have f_title : nt.title = item.title := htitle.trans hittrim
  have f_status : nt.status = TaskStatus.todo := hstat
  have f_prio : nt.priority = item.priority := hprio
  have f_due : nt.dueDate = addRecurrenceDate item.dueDate item.recurrence := hdue
  have f_sch : nt.scheduledAt = addRecurrenceDate item.scheduledAt item.recurrence := hsch
  have f_pid : nt.projectId = item.projectId := hpid2
  have f_src : nt.source = item.source := hsrc
  have f_rec : nt.recurrence = item.recurrence := hrec2
  have f_det : nt.details = trimDetails item.details := hdet2
  have f_id : nt.id = createId "task" s.nextId := by
    refine hid.trans ?_
    show createId "task" s1.nextId = _
    rw [hs1i]
  have hitid : item.id = id := hiid.trans htid
  have hmapU : ((s.tasks.map (fun u => if u.id = id then item else u)).map Task.id) =
      s.tasks.map Task.id := by
    rw [List.map_map]
    apply List.map_congr_left
    intro u hu
    by_cases hb : u.id = id
    · simp [hb, hitid]
    · simp [hb]
  have hmapN : (normalizeTaskOrder (s.tasks.map (fun u =>
      if u.id = id then item else u))).map Task.id = s.tasks.map Task.id := by
    rw [normalizeTaskOrder_map_id, hmapU]
  have c1 : ((updateTask id patch s).2).tasks.map Task.id =
      s.tasks.map Task.id ++ [nt.id] := by
    rw [heq, List.map_append, hmapN]
    rfl
  have c2 : ((updateTask id patch s).2).tasks.length = s.tasks.length + 1 := by
    have h := congrArg List.length c1
    simpa using h
  have c3 : ((updateTask id patch s).2).tasks.getLast? = some nt := by
    rw [heq, List.getLast?_concat]
  refine ⟨c1, c2, c3, f_status, f_title, f_det, f_prio, f_pid, f_src, f_rec, f_due, f_sch,
    ?_, ?_, ?_, ?_, ?_⟩
  · intro D hD hdy
    rw [f_due, hD, hdy]
    rfl
  · intro D hD hwk
    rw [f_due, hD, hwk]
    rfl
  · intro h0
    rw [f_due, h0]
    cases item.recurrence <;> rfl
  · intro h0
    rw [f_sch, h0]
    cases item.recurrence <;> rfl
  · intro patch2
    apply updateTask_from_done_len
    intro u hu hid3
    rw [heq] at hu
    rcases List.mem_append.mp hu with h1 | h2
    · obtain ⟨v, hv, hid4, hst4⟩ := mem_normalizeTaskOrder_shape _ u h1
      obtain ⟨w, hw, hvw⟩ := List.mem_map.mp hv
      by_cases hb : w.id = id
      · simp only [hb, if_true] at hvw
        rw [← hvw] at hst4
        exact hst4.trans hist
      · simp only [hb, if_false] at hvw
        subst hvw
        exact absurd (hid4 ▸ hid3) hb
    · exact absurd ((List.mem_singleton.mp h2) ▸ hid3 : nt.id = id) (f_id ▸ hfresh)

/-- A store with the Inbox project and one daily-recurrence todo task "A"
with due date 1000 ms, for the spawn witness. -/
def spawnStore : Store where
  projects := [{ id := "proj-inbox", title := "Inbox", description := Option.none, status := ProjectStatus.active, dueDate := Option.none, completionPercent := 0, source := SourceType.mission_control, createdAt := 0, updatedAt := 0 }]
  tasks := [{ id := "A", title := "Water plants", details := Option.none, status := TaskStatus.todo, priority := Priority.medium, dueDate := some (DateVal.valid 1000), scheduledAt := Option.none, completedAt := Option.none, projectId := "proj-inbox", source := SourceType.mission_control, order := 0, recurrence := Recurrence.daily, createdAt := 0, updatedAt := 0 }]
  now := 10
  nextId := 0

/-- The task row "A" of `spawnStore`. -/
def spawnTaskA : Task where
  id := "A"
  title := "Water plants"
  details := Option.none
  status := TaskStatus.todo
  priority := Priority.medium
  dueDate := some (DateVal.valid 1000)
  scheduledAt := Option.none
  completedAt := Option.none
  projectId := "proj-inbox"
  source := SourceType.mission_control
  order := 0
  recurrence := Recurrence.daily
  createdAt := 0
  updatedAt := 0

/-- C4 witness: completing the daily task "A" (due 1000 ms) in `spawnStore`
with the `{ status: "done" }` patch appends exactly one todo task due at
1000 + 86400000 ms, and any further update while "A" is done adds nothing. -/
theorem updateTask_done_crossing_spawn_witness :
    (spawnStore.tasks.find? (fun u => u.id = "A") = some spawnTaskA ∧
      donePatch.projectId ≠ some Option.none ∧
      donePatch.status = some TaskStatus.done ∧
      spawnTaskA.status ≠ TaskStatus.done ∧
      donePatch.recurrence.getD spawnTaskA.recurrence ≠ Recurrence.none ∧
      jsTrim spawnTaskA.title = spawnTaskA.title ∧
      (∃ p ∈ spawnStore.projects, p.id = spawnTaskA.projectId) ∧
      createId "task" spawnStore.nextId ≠ "A") ∧
    ∃ item nt : Task,
      (updateTask "A" donePatch spawnStore).1 = some item ∧
      item.status = TaskStatus.done ∧
      item.details = donePatch.details.getD spawnTaskA.details ∧
      item.dueDate = donePatch.dueDate.getD spawnTaskA.dueDate ∧
      item.scheduledAt = donePatch.scheduledAt.getD spawnTaskA.scheduledAt ∧
      item.recurrence = donePatch.recurrence.getD spawnTaskA.recurrence ∧
      ((updateTask "A" donePatch spawnStore).2).tasks.map Task.id =
        spawnStore.tasks.map Task.id ++ [nt.id] ∧
      ((updateTask "A" donePatch spawnStore).2).tasks.length =
        spawnStore.tasks.length + 1 ∧
      ((updateTask "A" donePatch spawnStore).2).tasks.getLast? = some nt ∧
      nt.status = TaskStatus.todo ∧
      nt.title = item.title ∧
      nt.details = trimDetails item.details ∧
      nt.priority = item.priority ∧
      nt.projectId = item.projectId ∧
      nt.source = item.source ∧
      nt.recurrence = item.recurrence ∧
      nt.dueDate = addRecurrenceDate item.dueDate item.recurrence ∧
      nt.scheduledAt = addRecurrenceDate item.scheduledAt item.recurrence ∧
      (∀ D : Int, item.dueDate = some (DateVal.valid D) → item.recurrence = Recurrence.daily →
        nt.dueDate = some (DateVal.valid (D + 86400000))) ∧
      (∀ D : Int, item.dueDate = some (DateVal.valid D) → item.recurrence = Recurrence.weekly →
        nt.dueDate = some (DateVal.valid (D + 604800000))) ∧
      (item.dueDate = Option.none → nt.dueDate = Option.none) ∧
      (item.scheduledAt = Option.none → nt.scheduledAt = Option.none) ∧
      (∀ patch2 : TaskPatch,
        ((updateTask "A" patch2 ((updateTask "A" donePatch spawnStore).2)).2).tasks.length =
          ((updateTask "A" donePatch spawnStore).2).tasks.length) := by
  refine ⟨⟨by decide, by decide, by decide, by decide, by decide, by decide, by decide,
    by decide⟩, ?_⟩
  exact updateTask_done_crossing_spawn "A" donePatch spawnStore spawnTaskA (by decide)
    (by decide) (by decide) (by decide) (by decide) (by decide) (by decide) (by decide)

/-- A store holding a daily todo task "D" whose details carry surrounding
whitespace — reachable, since `updateTask` stores `patch.details` without
trimming (store.ts line 806). -/
def cexDetStore : Store where
  projects := [{ id := "proj-inbox", title := "Inbox", description := Option.none, status := ProjectStatus.active, dueDate := Option.none, completionPercent := 0, source := SourceType.mission_control, createdAt := 0, updatedAt := 0 }]
  tasks := [{ id := "D", title := "Walk dog", details := some " note ", status := TaskStatus.todo, priority := Priority.medium, dueDate := Option.none, scheduledAt := Option.none, completedAt := Option.none, projectId := "proj-inbox", source := SourceType.mission_control, order := 0, recurrence := Recurrence.daily, createdAt := 0, updatedAt := 0 }]
  now := 3
  nextId := 0

/-- The task row "D" of `cexDetStore`. -/
def cexDetTask : Task where
  id := "D"
  title := "Walk dog"
  details := some " note "
  status := TaskStatus.todo
  priority := Priority.medium
  dueDate := Option.none
  scheduledAt := Option.none
  completedAt := Option.none
  projectId := "proj-inbox"
  source := SourceType.mission_control
  order := 0
  recurrence := Recurrence.daily
  createdAt := 0
  updatedAt := 0

/-- C4 counterexample to the original claim: completing the daily task "D"
whose stored details are " note " spawns a successor whose details are
"note" - the details are not copied. -/
theorem updateTask_spawn_details_counterexample :
    cexDetStore.tasks.find? (fun u => u.id = "D") = some cexDetTask ∧
    cexDetTask.status ≠ TaskStatus.done ∧
    cexDetTask.recurrence = Recurrence.daily ∧
    cexDetTask.details = some " note " ∧
    ((updateTask "D" donePatch cexDetStore).2).tasks.length =
      cexDetStore.tasks.length + 1 ∧
    (((updateTask "D" donePatch cexDetStore).2).tasks.getLast?).map Task.details =
      some (some "note") ∧
    some "note" ≠ cexDetTask.details := by decide

end TaskMgr
